import Mathlib

/-!
Verification development for the Minesweeper engine (`src/core` and
`src/game` of the repository).  The Python modules `core/enums.py`,
`core/settings.py`, `core/board.py`, `core/timer.py`, `core/results.py`
and `game/session.py` are shallowly embedded below: mutable objects
become explicit state passing, `random.Random.shuffle` becomes an
explicit `shuffle` function parameter (assumed to permute its input
where a theorem needs it), exceptions become `Except`/`Option` results,
and `time.monotonic()` becomes an explicit rational `now` argument.
The tile matrix `self._tiles` (a `height × width` list of lists indexed
as `self._tiles[y][x]`) is embedded as a total function
`tiles : Int → Int → Tile` (with `tiles x y` standing for
`self._tiles[y][x]`); every read and write in the source is guarded by a
bounds check, so the function representation is observationally
faithful.
-/

namespace Minesweeper

/-- Embedding of `core/enums.py`, `class TileState`. -/
inductive TileState where
  | HIDDEN
  | REVEALED
  | FLAGGED
  | QUESTION
deriving DecidableEq, Repr

/-- Embedding of `core/enums.py`, `class TileContent`. -/
inductive TileContent where
  | EMPTY
  | NUMBER
  | MINE
  | SPECIAL
deriving DecidableEq, Repr

/-- Embedding of `core/enums.py`, `class GameStatus`. -/
inductive GameStatus where
  | NOT_STARTED
  | IN_PROGRESS
  | WON
  | LOST
deriving DecidableEq, Repr

/-- Error taxonomy of `core/board.py`: `BoardConfigurationError` and
`BoardCoordinatesError` (the messages carried by the Python exceptions
are irrelevant to the claims and are dropped). -/
inductive BoardError where
  | ConfigurationError
  | CoordinatesError
deriving DecidableEq, Repr

/-- Embedding of `core/board.py`, `@dataclass class Tile`.  The
`tags` field (`Optional[Set[str]]`, always `None` in the engine) is
embedded as an optional list of strings. -/
structure Tile where
  is_mine : Bool := false
  state : TileState := TileState.HIDDEN
  adjacent_mines : Int := 0
  content : TileContent := TileContent.EMPTY
  tags : Option (List String) := none
deriving DecidableEq, Repr

/-- Constants from `core/settings.py`. -/
def MIN_BOARD_WIDTH : Int := 5

/-- Constant `MIN_BOARD_HEIGHT` from `core/settings.py`. -/
def MIN_BOARD_HEIGHT : Int := 5

/-- Constant `MIN_MINES` (= `MIN_MINES_COUNT`) from `core/settings.py`. -/
def MIN_MINES : Int := 1

/-- Embedding of `core/board.py`, `class Board` (attribute part).
`tiles x y` stands for `self._tiles[y][x]`. -/
structure Board where
  width : Int
  height : Int
  mine_count : Int
  safe_zone_radius : Int
  use_question_marks : Bool
  tiles : Int → Int → Tile
  mines_generated : Bool

/-- The expression `int(cell_count * MAX_MINES_FACTOR)` followed by the
floor at `MIN_MINES`, from `Board._validate_dimensions`.
`MAX_MINES_FACTOR` is the Python float `0.85`; for every cell count a
board can have (far below `2 ^ 45`) the double-precision product
truncates to exactly `⌊cell_count * 85 / 100⌋`, which is what is used
here (`cell_count` is positive at the call site, so `Int` division is
that floor). -/
def max_mines_by_factor (cell_count : Int) : Int :=
  let m := cell_count * 85 / 100
  if m < MIN_MINES then MIN_MINES else m

/-- Embedding of `Board._validate_dimensions` (core/board.py lines
104-145): returns the raised error, or `none` when validation passes. -/
def Board.validate_dimensions (width height mine_count : Int) :
    Option BoardError :=
  if width < MIN_BOARD_WIDTH then some BoardError.ConfigurationError
  else if height < MIN_BOARD_HEIGHT then some BoardError.ConfigurationError
  else
    let cell_count := width * height
    if cell_count ≤ 0 then some BoardError.ConfigurationError
    else if mine_count < MIN_MINES then some BoardError.ConfigurationError
    else if mine_count ≥ cell_count then some BoardError.ConfigurationError
    else if mine_count > max_mines_by_factor cell_count then
      some BoardError.ConfigurationError
    else none

/-- Embedding of `Board.__init__` (core/board.py lines 74-102):
validates, then checks `safe_zone_radius < 0`, then builds the fresh
tile matrix (`Tile()` everywhere) with no mines generated.  A raised
exception is the `Except.error` case, so construction never partially
succeeds. -/
def Board.create (width height mine_count safe_zone_radius : Int)
    (use_question_marks : Bool) : Except BoardError Board :=
  match Board.validate_dimensions width height mine_count with
  | some e => Except.error e
  | none =>
    if safe_zone_radius < 0 then Except.error BoardError.ConfigurationError
    else
      Except.ok
        { width := width
          height := height
          mine_count := mine_count
          safe_zone_radius := safe_zone_radius
          use_question_marks := use_question_marks
          tiles := fun _ _ => {}
          mines_generated := false }

/-- Embedding of `Board.in_bounds` (core/board.py lines 147-149). -/
def Board.in_bounds (b : Board) (x y : Int) : Bool :=
  decide (0 ≤ x ∧ x < b.width ∧ 0 ≤ y ∧ y < b.height)

/-- Embedding of `Board.get_neighbors` (core/board.py lines 159-170):
the 8-neighborhood clipped to the board, `dy` outer loop, `dx` inner. -/
def Board.get_neighbors (b : Board) (x y : Int) : List (Int × Int) :=
  ([-1, 0, 1] : List Int).flatMap fun dy =>
    ([-1, 0, 1] : List Int).filterMap fun dx =>
      if dx = 0 ∧ dy = 0 then none
      else if b.in_bounds (x + dx) (y + dy) then some (x + dx, y + dy)
      else none

/-- Embedding of `Board._reset_tiles` (core/board.py lines 172-180):
every tile back to the `Tile()` baseline. -/
def Board.reset_tiles (b : Board) : Board :=
  { b with tiles := fun _ _ => {} }

/-- Embedding of `Board._is_in_safe_zone` (core/board.py lines 182-186):
Chebyshev distance to the seed is at most `safe_zone_radius`. -/
def Board.is_in_safe_zone (b : Board) (x y safe_x safe_y : Int) : Bool :=
  let dx := |x - safe_x|
  let dy := |y - safe_y|
  decide (max dx dy ≤ b.safe_zone_radius)

/-- Functional write of one tile of the matrix (the elementary effect of
the assignments `tile.<field> = ...` in the source). -/
def Board.setTile (b : Board) (x y : Int) (t : Tile) : Board :=
  { b with tiles := fun x' y' => if x' = x ∧ y' = y then t else b.tiles x' y' }

/-- Write of `tile.state` alone, the other fields kept. -/
def Board.setTileState (b : Board) (x y : Int) (s : TileState) : Board :=
  b.setTile x y { b.tiles x y with state := s }

/-- The row-major traversal `for y in range(height): for x in range(width)`
of `Board.place_mines` / `Board._recalculate_adjacent_mines`. -/
def Board.allPositions (b : Board) : List (Int × Int) :=
  ((List.range b.height.toNat) ×ˢ (List.range b.width.toNat)).map
    fun q => ((q.2 : Int), (q.1 : Int))

/-- Mine-neighbor count of a cell, as accumulated by the inner loop of
`Board._recalculate_adjacent_mines` (core/board.py lines 226-229). -/
def Board.minesAround (b : Board) (x y : Int) : Nat :=
  (b.get_neighbors x y).countP fun p => (b.tiles p.1 p.2).is_mine

/-- Embedding of `Board._recalculate_adjacent_mines` (core/board.py
lines 216-235).  The pass writes only `adjacent_mines` and `content`
and reads only `is_mine` of other cells, so the simultaneous functional
update is faithful to the sequential loop. -/
def Board.recalculate_adjacent_mines (b : Board) : Board :=
  { b with
    tiles := fun x y =>
      if b.in_bounds x y then
        let tile := b.tiles x y
        if tile.is_mine then
          { tile with adjacent_mines := 0, content := TileContent.MINE }
        else
          let mines_around := b.minesAround x y
          { tile with
            adjacent_mines := (mines_around : Int)
            content :=
              if mines_around = 0 then TileContent.EMPTY
              else TileContent.NUMBER }
      else b.tiles x y }

/-- One step of the loop `for x, y in mine_positions` of
`Board.place_mines` (core/board.py lines 208-211). -/
def Board.setMine (b : Board) (p : Int × Int) : Board :=
  b.setTile p.1 p.2
    { b.tiles p.1 p.2 with is_mine := true, content := TileContent.MINE }

/-- The `all_positions` list of `Board.place_mines` (core/board.py
lines 193-197): the row-major traversal keeping the cells outside the
safe zone around the seed. -/
def Board.eligiblePositions (b : Board) (safe_x safe_y : Int) : List (Int × Int) :=
  b.allPositions.filter fun p => ¬ b.is_in_safe_zone p.1 p.2 safe_x safe_y

/-- Embedding of `Board.place_mines` (core/board.py lines 188-214).
`shuffle` stands for `self._random.shuffle` (in-place Fisher–Yates on
the eligible list); a raised exception is the `Except.error` case (the
tile reset performed before the infeasibility check is then discarded;
no claim observes the board behind that exception). -/
def Board.place_mines (shuffle : List (Int × Int) → List (Int × Int))
    (b : Board) (safe_x safe_y : Int) : Except BoardError Board :=
  if ¬ b.in_bounds safe_x safe_y then Except.error BoardError.CoordinatesError
  else
    let b := b.reset_tiles
    let all_positions := b.eligiblePositions safe_x safe_y
    if (all_positions.length : Int) < b.mine_count then
      Except.error BoardError.ConfigurationError
    else
      let mine_positions := (shuffle all_positions).take b.mine_count.toNat
      let b := mine_positions.foldl Board.setMine b
      let b := b.recalculate_adjacent_mines
      Except.ok { b with mines_generated := true }

/-- Embedding of `Board.is_win` (core/board.py lines 343-349). -/
def Board.is_win (b : Board) : Bool :=
  b.allPositions.all fun p =>
    (b.tiles p.1 p.2).is_mine ∨ (b.tiles p.1 p.2).state = TileState.REVEALED

/-- Number of board cells whose state is not `REVEALED`; the decreasing
part of the termination measure of the flood-reveal work list. -/
def Board.unrevealedCount (b : Board) : Nat :=
  b.allPositions.countP fun p => ¬ (b.tiles p.1 p.2).state = TileState.REVEALED

theorem allPositions_congr {b b' : Board} (hw : b'.width = b.width)
    (hh : b'.height = b.height) : b'.allPositions = b.allPositions := by
  simp [Board.allPositions, hw, hh]

theorem mem_allPositions {b : Board} {p : Int × Int} :
    p ∈ b.allPositions ↔ b.in_bounds p.1 p.2 = true := by
  obtain ⟨x, y⟩ := p
  unfold Board.allPositions
  constructor
  · intro h
    obtain ⟨⟨a, c⟩, hmem, heq⟩ := List.mem_map.mp h
    rw [List.mem_product] at hmem
    obtain ⟨ha, hc⟩ := hmem
    rw [List.mem_range] at ha hc
    have h1 : (c : Int) = x := congrArg Prod.fst heq
    have h2 : (a : Int) = y := congrArg Prod.snd heq
    simp only [Board.in_bounds, decide_eq_true_eq]
    refine ⟨?_, ?_, ?_, ?_⟩ <;> omega
  · intro h
    simp only [Board.in_bounds, decide_eq_true_eq] at h
    refine List.mem_map.mpr ⟨(y.toNat, x.toNat), List.mem_product.mpr ⟨?_, ?_⟩, ?_⟩
    · rw [List.mem_range]; omega
    · rw [List.mem_range]; omega
    · simp only [Prod.mk.injEq]
      constructor <;> omega

theorem nodup_allPositions (b : Board) : b.allPositions.Nodup := by
  refine List.Nodup.map ?_ (List.Nodup.product (List.nodup_range _) (List.nodup_range _))
  rintro ⟨a, c⟩ ⟨a', c'⟩ h
  simp only [Prod.mk.injEq] at h ⊢
  omega

theorem length_allPositions (b : Board) :
    b.allPositions.length = b.height.toNat * b.width.toNat := by
  simp [Board.allPositions, List.length_product]

theorem setTileState_tiles (b : Board) (x y : Int) (s : TileState) (x' y' : Int) :
    (b.setTileState x y s).tiles x' y'
      = if x' = x ∧ y' = y then { b.tiles x y with state := s } else b.tiles x' y' := rfl

theorem countP_le_countP {α : Type} {p q : α → Bool} {l : List α}
    (hmono : ∀ a ∈ l, q a = true → p a = true) : l.countP q ≤ l.countP p := by
  induction l with
  | nil => simp
  | cons hd tl ih =>
    have h1 := ih fun a h => hmono a (List.mem_cons_of_mem _ h)
    have h2 : q hd = true → p hd = true := hmono hd (List.mem_cons_self _ _)
    simp only [List.countP_cons]
    cases hq : q hd <;> cases hp : p hd <;> simp_all <;> omega

theorem countP_lt_countP {α : Type} {p q : α → Bool} {l : List α}
    (hmono : ∀ a ∈ l, q a = true → p a = true) {a : α} (ha : a ∈ l)
    (hpa : p a = true) (hqa : q a = false) : l.countP q < l.countP p := by
  induction l with
  | nil => cases ha
  | cons hd tl ih =>
    have hmono' : ∀ x ∈ tl, q x = true → p x = true :=
      fun x h => hmono x (List.mem_cons_of_mem _ h)
    have h2 : q hd = true → p hd = true := hmono hd (List.mem_cons_self _ _)
    simp only [List.countP_cons]
    rcases List.mem_cons.mp ha with hh | hh
    · subst hh
      have hle := countP_le_countP hmono'
      cases hq : q a <;> cases hp : p a <;> simp_all <;> omega
    · have hlt := ih hmono' hh
      cases hq : q hd <;> cases hp : p hd <;> simp_all <;> omega

theorem unrevealedCount_lt_of_set_revealed (b : Board) (x y : Int)
    (hin : b.in_bounds x y = true)
    (hst : ¬ (b.tiles x y).state = TileState.REVEALED) :
    (b.setTileState x y TileState.REVEALED).unrevealedCount < b.unrevealedCount := by
  have hall : (b.setTileState x y TileState.REVEALED).allPositions = b.allPositions :=
    allPositions_congr rfl rfl
  unfold Board.unrevealedCount
  rw [hall]
  refine countP_lt_countP (a := (x, y)) ?_ (mem_allPositions.mpr hin) ?_ ?_
  · intro p _ hp
    rw [setTileState_tiles] at hp
    by_cases hpx : p.1 = x ∧ p.2 = y
    · rw [if_pos hpx] at hp
      simp at hp
    · rwa [if_neg hpx] at hp
  · simpa using hst
  · rw [setTileState_tiles]
    simp

/-- Embedding of `core/results.py`, `@dataclass class BoardUpdateResult`. -/
structure BoardUpdateResult where
  changed : List (Int × Int)
  exploded : Bool
  won : Bool
deriving Repr

/-- Embedding of the `while queue:` loop of `Board._flood_reveal`
(core/board.py lines 294-316).  The Python work list is a stack
(`queue.pop()` takes the last element, `queue.append` pushes there);
it is embedded with the head of `queue` as the stack top, so the
neighbors pushed by one iteration are prepended in reverse.  Every
coordinate on the work list is in bounds in the source (the seed is
bounds-checked by `open_tile`, neighbors are clipped), so the guard
`hin` only keeps the embedding total; out-of-bounds entries are
skipped.  Termination: each iteration pops one entry, and an entry
survives the skip checks only by newly revealing an in-bounds tile, so
`(unrevealedCount, queue length)` decreases lexicographically. -/
def Board.floodLoop (b : Board) (queue changed : List (Int × Int)) :
    Board × List (Int × Int) :=
  match queue with
  | [] => (b, changed)
  | (cx, cy) :: rest =>
    if hin : b.in_bounds cx cy = true then
      if hrev : (b.tiles cx cy).state = TileState.REVEALED then
        Board.floodLoop b rest changed
      else if hmark : (b.tiles cx cy).state = TileState.FLAGGED ∨
          (b.tiles cx cy).state = TileState.QUESTION then
        Board.floodLoop b rest changed
      else if hmine : (b.tiles cx cy).is_mine then
        Board.floodLoop b rest changed
      else
        let b' := b.setTileState cx cy TileState.REVEALED
        let changed' := changed ++ [(cx, cy)]
        if hnum : (b.tiles cx cy).adjacent_mines ≠ 0 then
          Board.floodLoop b' rest changed'
        else
          let pushes := (b'.get_neighbors cx cy).filter
            fun p => decide ((b'.tiles p.1 p.2).state = TileState.HIDDEN)
          Board.floodLoop b' (pushes.reverse ++ rest) changed'
    else
      Board.floodLoop b rest changed
termination_by (b.unrevealedCount, queue.length)
decreasing_by
  all_goals first
    | exact Prod.Lex.left _ _ (unrevealedCount_lt_of_set_revealed b cx cy hin (by assumption))
    | exact Prod.Lex.right _ (Nat.lt_succ_self _)

/-- Embedding of `Board._flood_reveal` (core/board.py lines 292-316):
seed the work list and run the loop; `changed` is the accumulator the
caller passes (empty in `open_tile`). -/
def Board.flood_reveal (b : Board) (x y : Int) (changed : List (Int × Int)) :
    Board × List (Int × Int) :=
  Board.floodLoop b [(x, y)] changed

/-- Embedding of `Board.open_tile` (core/board.py lines 258-290).
`shuffle` is threaded to the lazy `place_mines` call; a raised
exception is the `Except.error` case. -/
def Board.open_tile (shuffle : List (Int × Int) → List (Int × Int))
    (b : Board) (x y : Int) (safe_first_click : Bool) :
    Except BoardError (Board × BoardUpdateResult) :=
  if ¬ b.in_bounds x y then Except.error BoardError.CoordinatesError
  else
    match (if ¬ b.mines_generated ∧ safe_first_click then Board.place_mines shuffle b x y
           else Except.ok b) with
    | Except.error e => Except.error e
    | Except.ok b =>
      let tile := b.tiles x y
      if tile.state = TileState.REVEALED then
        Except.ok (b, { changed := [], exploded := false, won := b.is_win })
      else if tile.is_mine then
        let b := b.setTileState x y TileState.REVEALED
        Except.ok (b, { changed := [(x, y)], exploded := true, won := false })
      else if tile.adjacent_mines = 0 then
        let r := b.flood_reveal x y []
        Except.ok (r.1, { changed := r.2, exploded := false, won := r.1.is_win })
      else
        let b := b.setTileState x y TileState.REVEALED
        Except.ok (b, { changed := [(x, y)], exploded := false, won := b.is_win })

/-- Embedding of `Board.toggle_flag` (core/board.py lines 318-341):
returns the delta together with the updated board; the final
`return 0` of the source is unreachable (the four states are
exhaustive) and is kept as the last case. -/
def Board.toggle_flag (b : Board) (x y : Int) : Except BoardError (Int × Board) :=
  if ¬ b.in_bounds x y then Except.error BoardError.CoordinatesError
  else
    let tile := b.tiles x y
    if tile.state = TileState.REVEALED then Except.ok (0, b)
    else if tile.state = TileState.HIDDEN then
      Except.ok (1, b.setTileState x y TileState.FLAGGED)
    else if tile.state = TileState.FLAGGED then
      if b.use_question_marks then
        Except.ok (-1, b.setTileState x y TileState.QUESTION)
      else
        Except.ok (-1, b.setTileState x y TileState.HIDDEN)
    else if tile.state = TileState.QUESTION then
      Except.ok (0, b.setTileState x y TileState.HIDDEN)
    else Except.ok (0, b)

/-- Number of mines on the board (the count the claims compare with
`mine_count`). -/
def Board.countMines (b : Board) : Nat :=
  b.allPositions.countP fun p => (b.tiles p.1 p.2).is_mine

/-- Python `int()` applied to a nonnegative-or-negative rational:
truncation toward zero (`int(2.7) = 2`, `int(-2.7) = -2`), used by
`GameTimer.get_elapsed_seconds`. -/
def pyInt (q : ℚ) : ℤ := if q < 0 then -⌊-q⌋ else ⌊q⌋

/-- Embedding of `core/timer.py`, `class GameTimer`.  `time.monotonic()`
readings become explicit rational `now` arguments; reading the clock is
the only effect of the Python methods beyond the three fields below, so
each method is a pure state transformer. -/
structure GameTimer where
  start_time : Option ℚ
  accumulated_time : ℚ
  running : Bool

/-- Embedding of `GameTimer.__init__` (core/timer.py lines 22-26). -/
def GameTimer.init : GameTimer :=
  { start_time := none, accumulated_time := 0, running := false }

/-- Embedding of `GameTimer.start` (core/timer.py lines 28-37):
idempotent while running. -/
def GameTimer.start (t : GameTimer) (now : ℚ) : GameTimer :=
  if t.running then t
  else { t with start_time := some now, running := true }

/-- Embedding of `GameTimer.pause` (core/timer.py lines 39-49):
no-op unless running with an anchor; otherwise folds `now - start_time`
into the accumulator and stops. -/
def GameTimer.pause (t : GameTimer) (now : ℚ) : GameTimer :=
  match t.running, t.start_time with
  | true, some st =>
    { t with
      accumulated_time := t.accumulated_time + (now - st)
      start_time := none
      running := false }
  | _, _ => t

/-- Embedding of `GameTimer.resume` (core/timer.py lines 51-59):
identical to `start` (the source duplicates the logic). -/
def GameTimer.resume (t : GameTimer) (now : ℚ) : GameTimer :=
  if t.running then t
  else { t with start_time := some now, running := true }

/-- Embedding of `GameTimer.reset` (core/timer.py lines 61-65). -/
def GameTimer.reset (t : GameTimer) : GameTimer :=
  { t with start_time := none, accumulated_time := 0, running := false }

/-- Embedding of `GameTimer.get_elapsed_seconds` (core/timer.py lines
67-78): a pure function of the timer state and the clock reading — it
returns `int(total)` and by construction mutates nothing. -/
def GameTimer.get_elapsed_seconds (t : GameTimer) (now : ℚ) : ℤ :=
  let total :=
    match t.running, t.start_time with
    | true, some st => t.accumulated_time + (now - st)
    | _, _ => t.accumulated_time
  pyInt total

/-- Embedding of `game/session.py`, `@dataclass class SessionSettings`
(defaults `DEFAULT_SAFE_ZONE_RADIUS = 1`,
`DEFAULT_USE_QUESTION_MARKS = True` from core/settings.py). -/
structure SessionSettings where
  width : Int
  height : Int
  mine_count : Int
  safe_zone_radius : Int := 1
  use_question_marks : Bool := true

/-- Modelled from the spec: the module `game/rules.py` (class
`GameRules`) is imported by `game/session.py` but is not among the
sources.  Spec section 6 fixes its interface — exactly two operations,
`reveal(board, x, y) -> ActionResult` and
`toggle_mark(board, x, y) -> delta` — and sections 2 and 9 describe the
one concrete classic implementation as the policy that maps a player
action to the corresponding Board mutation and result.  It is modelled
as direct delegation to `Board.open_tile` (with the Board default
`safe_first_click = True`) and `Board.toggle_flag`. -/
def GameRules.open_tile (shuffle : List (Int × Int) → List (Int × Int))
    (board : Board) (x y : Int) : Except BoardError (Board × BoardUpdateResult) :=
  Board.open_tile shuffle board x y true

/-- Modelled from the spec: the `toggle_mark` operation of the classic
rules strategy of `game/rules.py` (see `GameRules.open_tile` above),
modelled as direct delegation to `Board.toggle_flag`. -/
def GameRules.toggle_flag (board : Board) (x y : Int) :
    Except BoardError (Int × Board) :=
  Board.toggle_flag board x y

/-- Embedding of `game/session.py`, `class GameSession` (attribute
part). -/
structure GameSession where
  settings : SessionSettings
  timer : GameTimer
  board : Board
  status : GameStatus
  is_paused : Bool
  remaining_flags : Int

/-- Embedding of `GameSession._create_board` (game/session.py lines
114-123). -/
def GameSession.create_board (settings : SessionSettings) :
    Except BoardError Board :=
  Board.create settings.width settings.height settings.mine_count
    settings.safe_zone_radius settings.use_question_marks

/-- Embedding of `GameSession.__init__` (game/session.py lines 58-70):
a raised `BoardConfigurationError` is the `Except.error` case, so no
session exists for invalid settings. -/
def GameSession.create (settings : SessionSettings) :
    Except BoardError GameSession :=
  match GameSession.create_board settings with
  | Except.error e => Except.error e
  | Except.ok b =>
    Except.ok
      { settings := settings
        timer := GameTimer.init
        board := b
        status := GameStatus.NOT_STARTED
        is_paused := false
        remaining_flags := settings.mine_count }

/-- Embedding of `GameSession.restart` (game/session.py lines 125-135)
with `keep_settings = True` (the only way the engine calls it): the
timer is reset first, then the board is rebuilt; if the rebuild raised,
the session would keep its old board with the timer already reset. -/
def GameSession.restart (s : GameSession) : Option BoardError × GameSession :=
  let s := { s with timer := s.timer.reset }
  match GameSession.create_board s.settings with
  | Except.error e => (some e, s)
  | Except.ok b =>
    (none,
      { s with
        board := b
        status := GameStatus.NOT_STARTED
        is_paused := false
        remaining_flags := s.settings.mine_count })

/-- Embedding of `GameSession._ensure_can_play` (game/session.py lines
142-148). -/
def GameSession.ensure_can_play (s : GameSession) : Bool :=
  if s.is_paused then false
  else if s.status = GameStatus.WON ∨ s.status = GameStatus.LOST then false
  else true

/-- Embedding of `GameSession.open_tile` (game/session.py lines
152-170).  Returns the Python return value (`None` when the guard
rejects the move) or the propagated exception, together with the
session state after the call (on an exception the mutations already
performed — status set to `IN_PROGRESS`, timer started — are kept, as
in the source). -/
def GameSession.open_tile (shuffle : List (Int × Int) → List (Int × Int))
    (s : GameSession) (x y : Int) (now : ℚ) :
    Except BoardError (Option BoardUpdateResult) × GameSession :=
  if ¬ s.ensure_can_play then (Except.ok none, s)
  else
    let s :=
      if s.status = GameStatus.NOT_STARTED then
        { s with status := GameStatus.IN_PROGRESS, timer := s.timer.start now }
      else s
    match GameRules.open_tile shuffle s.board x y with
    | Except.error e => (Except.error e, s)
    | Except.ok (b, result) =>
      let s := { s with board := b }
      let s :=
        if result.exploded then
          { s with status := GameStatus.LOST, timer := s.timer.pause now }
        else if result.won then
          { s with status := GameStatus.WON, timer := s.timer.pause now }
        else s
      (Except.ok (some result), s)

/-- Embedding of `GameSession.toggle_flag` (game/session.py lines
172-199): on a non-zero delta, `remaining_flags` is decreased by the
delta, then clamped to `[0, mine_count]`. -/
def GameSession.toggle_flag (s : GameSession) (x y : Int) :
    Except BoardError (Option Int) × GameSession :=
  if ¬ s.ensure_can_play then (Except.ok none, s)
  else
    match GameRules.toggle_flag s.board x y with
    | Except.error e => (Except.error e, s)
    | Except.ok (delta, b) =>
      let s := { s with board := b }
      let s :=
        if delta ≠ 0 then
          let rf := s.remaining_flags - delta
          let rf :=
            if rf < 0 then 0
            else if rf > s.settings.mine_count then s.settings.mine_count
            else rf
          { s with remaining_flags := rf }
        else s
      (Except.ok (some delta), s)

/-- Embedding of `GameSession.pause` (game/session.py lines 214-221). -/
def GameSession.pause (s : GameSession) (now : ℚ) : GameSession :=
  if s.is_paused then s
  else if ¬ s.status = GameStatus.IN_PROGRESS then s
  else { s with is_paused := true, timer := s.timer.pause now }

/-- Embedding of `GameSession.resume` (game/session.py lines 223-231). -/
def GameSession.resume (s : GameSession) (now : ℚ) : GameSession :=
  if ¬ s.is_paused then s
  else if ¬ s.status = GameStatus.IN_PROGRESS then { s with is_paused := false }
  else { s with is_paused := false, timer := s.timer.resume now }

/-- The operations the view layer may call on a session (spec sections
4.2 and 6: `reveal`, `toggle_mark`, `pause`, `resume`, `restart`),
with their clock readings and the random source of a reveal made
explicit. -/
inductive SessionOp where
  | reveal (shuffle : List (Int × Int) → List (Int × Int)) (x y : Int) (now : ℚ)
  | mark (x y : Int)
  | pauseAt (now : ℚ)
  | resumeAt (now : ℚ)
  | restart

/-- The session state after one view-layer call (the returned value —
or the propagated exception — is discarded; the state kept is the one
the Python object holds after the call, exceptional or not). -/
def GameSession.applyOp (s : GameSession) : SessionOp → GameSession
  | SessionOp.reveal shuffle x y now => (s.open_tile shuffle x y now).2
  | SessionOp.mark x y => (s.toggle_flag x y).2
  | SessionOp.pauseAt now => s.pause now
  | SessionOp.resumeAt now => s.resume now
  | SessionOp.restart => s.restart.2

/-- The session state after a finite sequence of view-layer calls. -/
def GameSession.applyOps (s : GameSession) (ops : List SessionOp) : GameSession :=
  ops.foldl GameSession.applyOp s

/-- Deltas and final board of `n` consecutive `Board.toggle_flag` calls
on the same cell (the repeated-call scenario of the marking-cycle
claim). -/
def Board.toggleSeq (b : Board) (x y : Int) : Nat → Except BoardError (List Int × Board)
  | 0 => Except.ok ([], b)
  | n + 1 =>
    match b.toggle_flag x y with
    | Except.error e => Except.error e
    | Except.ok (d, b') =>
      match b'.toggleSeq x y n with
      | Except.error e => Except.error e
      | Except.ok (ds, b'') => Except.ok (d :: ds, b'')

/-- Coordinates the flood-reveal work list can reach from the seed
`(sx, sy)`, expressed over the initial board state: the seed itself,
and inductively every initially `HIDDEN` neighbor of a reached cell
that is initially a `HIDDEN` non-mine cell with zero adjacency (only
such cells are revealed and push their neighbors). -/
inductive FloodReach (b : Board) (sx sy : Int) : Int × Int → Prop where
  | seed : FloodReach b sx sy (sx, sy)
  | step (c n : Int × Int) (hc : FloodReach b sx sy c)
      (hhid : (b.tiles c.1 c.2).state = TileState.HIDDEN)
      (hmine : (b.tiles c.1 c.2).is_mine = false)
      (hzero : (b.tiles c.1 c.2).adjacent_mines = 0)
      (hn : n ∈ b.get_neighbors c.1 c.2)
      (hnh : (b.tiles n.1 n.2).state = TileState.HIDDEN) :
      FloodReach b sx sy n

/-- Definition written from the words of the flood-reveal claim, for
comparison with what the code computes: the non-mine cells of the
board whose `adjacent_mines` is zero (the cells of the "zero-adjacency
region", irrespective of their current visibility state). -/
def specZeroCells (b : Board) : List (Int × Int) :=
  b.allPositions.filter fun p =>
    decide (¬ (b.tiles p.1 p.2).is_mine = true ∧ (b.tiles p.1 p.2).adjacent_mines = 0)

/-- One expansion step of the claimed region: add the zero-adjacency
cells 8-adjacent to the current set. -/
def specExpand (b : Board) (cur : List (Int × Int)) : List (Int × Int) :=
  (cur ++ (specZeroCells b).filter fun p =>
    decide (∃ c ∈ cur, p ∈ b.get_neighbors c.1 c.2)).dedup

/-- Definition written from the words of the flood-reveal claim: the
maximal connected zero-adjacency region containing the seed
(8-connectivity among zero-adjacency cells, reached here by iterating
the expansion once per board cell, which reaches the fixed point). -/
def specZeroRegion (b : Board) (x y : Int) : List (Int × Int) :=
  (specExpand b)^[b.width.toNat * b.height.toNat] [(x, y)]

/-- Definition written from the words of the flood-reveal claim: the
maximal connected zero-adjacency region containing the seed, plus its
immediate numbered border, minus any player-marked (Flagged/Question)
cells — the set the claim says flood-reveal sets to `REVEALED` and
records in `changed`. -/
def specClaimedReveal (b : Board) (x y : Int) : List (Int × Int) :=
  let region := specZeroRegion b x y
  let border := b.allPositions.filter fun p =>
    decide (¬ p ∈ region ∧ ∃ c ∈ region, p ∈ b.get_neighbors c.1 c.2)
  (region ++ border).filter fun p =>
    decide (¬ ((b.tiles p.1 p.2).state = TileState.FLAGGED ∨
      (b.tiles p.1 p.2).state = TileState.QUESTION))

/-- The reversal permutation, used as a concrete `shuffle` when a
specific mine layout is wanted in a witness. -/
def revShuffle : List (Int × Int) → List (Int × Int) := fun l => l.reverse

/-- Fallback used only to extract `Except.ok` payloads of concrete
constructions (never actually reached). -/
def fallbackBoard : Board :=
  { width := 5
    height := 5
    mine_count := 2
    safe_zone_radius := 0
    use_question_marks := true
    tiles := fun _ _ => {}
    mines_generated := false }

/-- A concrete valid 5×5 board with 2 mines and safe-zone radius 0. -/
def demoBoard : Board := (Board.create 5 5 2 0 true).toOption.getD fallbackBoard

/-- `demoBoard` after identity-shuffle placement seeded at `(0, 0)`:
the mines land on `(1, 0)` and `(2, 0)`, two adjacent cells. -/
def demoPlaced : Board :=
  (Board.place_mines id demoBoard 0 0).toOption.getD fallbackBoard

/-- A concrete valid 5×5 board with a single mine and safe-zone
radius 0. -/
def farBoard : Board := (Board.create 5 5 1 0 true).toOption.getD fallbackBoard

/-- `farBoard` after reversal-shuffle placement seeded at `(0, 0)`:
the mine lands on `(4, 4)`, so the whole top-left area has zero
adjacency. -/
def farPlaced : Board :=
  (Board.place_mines revShuffle farBoard 0 0).toOption.getD fallbackBoard

/-- `farPlaced` with the three neighbors of the corner `(0, 0)`
flagged by the player: the flags separate the corner from the rest of
the zero-adjacency region. -/
def flaggedBoard : Board :=
  ((farPlaced.setTileState 1 0 TileState.FLAGGED).setTileState 0 1
    TileState.FLAGGED).setTileState 1 1 TileState.FLAGGED

/-- A board whose `use_question_marks` is `False` but whose corner tile
carries a `QUESTION` mark (such a state is not reachable by the marking
cycle of this board, which is exactly why the marking-cycle claim needs
a correction). -/
def questionBoard : Board :=
  { width := 5
    height := 5
    mine_count := 2
    safe_zone_radius := 1
    use_question_marks := false
    tiles := fun x y => if x = 0 ∧ y = 0 then { state := TileState.QUESTION } else {}
    mines_generated := false }

/-- Concrete session settings: 5×5, one mine, safe-zone radius 0. -/
def demoSettings : SessionSettings :=
  { width := 5
    height := 5
    mine_count := 1
    safe_zone_radius := 0
    use_question_marks := true }

/-- Fallback used only to extract `Except.ok` payloads of concrete
session constructions (never actually reached). -/
def fallbackSession : GameSession :=
  { settings := demoSettings
    timer := GameTimer.init
    board := fallbackBoard
    status := GameStatus.NOT_STARTED
    is_paused := false
    remaining_flags := 1 }

/-- The session for `demoSettings`, fresh from construction. -/
def demoSession : GameSession :=
  (GameSession.create demoSettings).toOption.getD fallbackSession

/-- Work-list invariant of the flood-reveal loop, relating the current
loop state `(b, q, ch)` to the board `b0` the loop started from and the
seed `(sx, sy)`: the cells recorded in `ch` are exactly the tiles set
`REVEALED` so far (everything else is untouched), each of them was an
initially `HIDDEN`, non-mine, in-bounds cell reachable from the seed,
the work list holds only reachable initially `HIDDEN` in-bounds cells,
every zero-adjacency cell already revealed has each initially `HIDDEN`
neighbor accounted for (revealed, queued, or a mine), and the seed
itself is accounted for. -/
def FloodInv (b0 : Board) (sx sy : Int) (b : Board)
    (q ch : List (Int × Int)) : Prop :=
  (∀ p : Int × Int, p ∈ ch →
    b.tiles p.1 p.2 = { b0.tiles p.1 p.2 with state := TileState.REVEALED }) ∧
  (∀ p : Int × Int, ¬ p ∈ ch → b.tiles p.1 p.2 = b0.tiles p.1 p.2) ∧
  b.width = b0.width ∧ b.height = b0.height ∧
  ch.Nodup ∧
  (∀ p : Int × Int, p ∈ ch → FloodReach b0 sx sy p ∧
    (b0.tiles p.1 p.2).state = TileState.HIDDEN ∧
    (b0.tiles p.1 p.2).is_mine = false ∧ b0.in_bounds p.1 p.2 = true) ∧
  (∀ p : Int × Int, p ∈ q → FloodReach b0 sx sy p ∧
    (b0.tiles p.1 p.2).state = TileState.HIDDEN ∧
    b0.in_bounds p.1 p.2 = true) ∧
  (∀ c : Int × Int, c ∈ ch → (b0.tiles c.1 c.2).adjacent_mines = 0 →
    ∀ n : Int × Int, n ∈ b0.get_neighbors c.1 c.2 →
      (b0.tiles n.1 n.2).state = TileState.HIDDEN →
      (n ∈ ch ∨ n ∈ q ∨ (b0.tiles n.1 n.2).is_mine = true)) ∧
  ((sx, sy) ∈ ch ∨ (sx, sy) ∈ q ∨ (b0.tiles sx sy).is_mine = true)

theorem validate_dimensions_eq_none_iff (w h mc : Int) :
    Board.validate_dimensions w h mc = none ↔
      (MIN_BOARD_WIDTH ≤ w ∧ MIN_BOARD_HEIGHT ≤ h ∧ MIN_MINES ≤ mc ∧
        mc < w * h ∧ mc ≤ max_mines_by_factor (w * h)) := by
  have hwh : (4 : Int) < w → 4 < h → 0 < w * h :=
    fun hw hh => mul_pos (by omega) (by omega)
  unfold Board.validate_dimensions
  simp only [MIN_BOARD_WIDTH, MIN_BOARD_HEIGHT, MIN_MINES] at *
  split_ifs with h1 h2 h3 h4 h5 h6 <;> constructor <;> intro hx <;>
    first
      | omega
      | (exact absurd rfl (by simp at hx))
      | (exfalso; revert hx; simp; intros; omega)
      | rfl
      | (simp at hx)

/-- Every `Board.validate_dimensions` failure is a configuration
error. -/
theorem validate_dimensions_error (w h mc : Int) :
    Board.validate_dimensions w h mc = none ∨
      Board.validate_dimensions w h mc = some BoardError.ConfigurationError := by
  unfold Board.validate_dimensions
  split_ifs <;> simp
  by_cases hc : w * h ≤ 0
  · rw [if_pos hc]
    exact Or.inr fun h1 => absurd h1 (by omega)
  · rw [if_neg hc]
    by_cases hm : w * h ≤ mc
    · rw [if_pos hm]
      exact Or.inr fun _ h2 => absurd h2 (by omega)
    · rw [if_neg hm]
      by_cases hf : max_mines_by_factor (w * h) < mc
      · rw [if_pos hf]
        exact Or.inr fun _ _ => hf
      · rw [if_neg hf]
        exact Or.inl rfl

theorem eligible_reset (b : Board) (sx sy : Int) :
    b.reset_tiles.eligiblePositions sx sy = b.eligiblePositions sx sy := rfl

/-- C4: Board construction raises a `ConfigurationError` exactly when a
bound is violated — width below the fixed minimum, height below the
fixed minimum, `mine_count < 1`, `mine_count ≥ width*height`,
`mine_count` above `⌊cells * max_density_fraction⌋` floored at the
minimum mine count (`max_mines_by_factor`), or `safe_zone_radius < 0` —
and (the construction being a pure `Except`) never partially succeeds;
additionally `place_mines` raises a `ConfigurationError` whenever the
set of cells outside the safe zone is smaller than `mine_count`. -/
theorem configuration_error_conditions (w h mc r : Int) (q : Bool)
    (shuffle : List (Int × Int) → List (Int × Int)) (b : Board) (sx sy : Int) :
    (Board.create w h mc r q = Except.error BoardError.ConfigurationError ↔
      (w < MIN_BOARD_WIDTH ∨ h < MIN_BOARD_HEIGHT ∨ mc < MIN_MINES ∨
        mc ≥ w * h ∨ mc > max_mines_by_factor (w * h) ∨ r < 0)) ∧
    (b.in_bounds sx sy = true →
      ((b.eligiblePositions sx sy).length : Int) < b.mine_count →
      Board.place_mines shuffle b sx sy = Except.error BoardError.ConfigurationError) := by
  constructor
  · unfold Board.create
    rcases validate_dimensions_error w h mc with hv | hv <;> rw [hv]
    · have hnone := (validate_dimensions_eq_none_iff w h mc).mp hv
      simp only [MIN_BOARD_WIDTH, MIN_BOARD_HEIGHT, MIN_MINES] at *
      split_ifs with hr
      · simp only [true_iff]
        exact Or.inr (Or.inr (Or.inr (Or.inr (Or.inr hr))))
      · simp only [reduceCtorEq, false_iff]
        push_neg
        refine ⟨by omega, by omega, by omega, by omega, by omega, by omega⟩
    · have hnotnone : ¬ Board.validate_dimensions w h mc = none := by
        rw [hv]; simp
      rw [validate_dimensions_eq_none_iff] at hnotnone
      push_neg at hnotnone
      simp only [MIN_BOARD_WIDTH, MIN_BOARD_HEIGHT, MIN_MINES] at *
      constructor
      · intro _
        by_cases h1 : w < 5
        · exact Or.inl h1
        by_cases h2 : h < 5
        · exact Or.inr (Or.inl h2)
        by_cases h3 : mc < 1
        · exact Or.inr (Or.inr (Or.inl h3))
        by_cases h4 : mc ≥ w * h
        · exact Or.inr (Or.inr (Or.inr (Or.inl h4)))
        have h5 := hnotnone (by omega) (by omega) (by omega) (by omega)
        exact Or.inr (Or.inr (Or.inr (Or.inr (Or.inl (by omega)))))
      · intro _
        trivial
  · intro hin hlen
    unfold Board.place_mines
    rw [if_neg (by simp [hin])]
    simp only [eligible_reset]
    have hmc : b.reset_tiles.mine_count = b.mine_count := rfl
    rw [hmc, if_pos hlen]

/-- C6 (part 1 of the proof): the guard itself. -/
theorem ensure_can_play_false {s : GameSession}
    (h : s.is_paused = true ∨ s.status = GameStatus.WON ∨ s.status = GameStatus.LOST) :
    s.ensure_can_play = false := by
  unfold GameSession.ensure_can_play
  rcases h with h | h | h <;> simp [h]

/-- C6: while the session is paused or already decided (`WON`/`LOST`),
both the reveal action and the toggle-mark action return the no-action
result `None` and leave the session — board tiles, status, paused flag,
timer state and `remaining_flags` — exactly as before the call. -/
theorem guard_rejects_actions (s : GameSession)
    (shuffle : List (Int × Int) → List (Int × Int)) (x y : Int) (now : ℚ)
    (h : s.is_paused = true ∨ s.status = GameStatus.WON ∨ s.status = GameStatus.LOST) :
    s.open_tile shuffle x y now = (Except.ok none, s) ∧
    s.toggle_flag x y = (Except.ok none, s) := by
  have hcan := ensure_can_play_false h
  constructor
  · unfold GameSession.open_tile
    rw [if_pos (by simp [hcan])]
  · unfold GameSession.toggle_flag
    rw [if_pos (by simp [hcan])]

/-- Witness for `guard_rejects_actions` at the fresh demo session
marked paused. -/
theorem guard_rejects_actions_witness :
    (({ demoSession with is_paused := true } : GameSession).is_paused = true ∨
      ({ demoSession with is_paused := true } : GameSession).status = GameStatus.WON ∨
      ({ demoSession with is_paused := true } : GameSession).status = GameStatus.LOST) ∧
    ({ demoSession with is_paused := true } : GameSession).open_tile id 2 2 0
      = (Except.ok none, { demoSession with is_paused := true }) ∧
    ({ demoSession with is_paused := true } : GameSession).toggle_flag 2 2
      = (Except.ok none, { demoSession with is_paused := true }) := by
  refine ⟨Or.inl rfl, ?_⟩
  exact guard_rejects_actions { demoSession with is_paused := true } id 2 2 0 (Or.inl rfl)

/-- C8: modelling the monotonic clock as an explicit input, a timer
started at `t0`, paused at `t1`, resumed at `t2` and queried at `t3`
(with `t0 ≤ t1 ≤ t2 ≤ t3`) reports `⌊(t1 - t0) + (t3 - t2)⌋` whole
seconds — the pause gap is excluded.  In the embedding
`get_elapsed_seconds` is a plain function of the timer state returning
an integer and no new state, which is the "querying never mutates"
half of the claim. -/
theorem timer_elapsed_excludes_pause (t0 t1 t2 t3 : ℚ)
    (h01 : t0 ≤ t1) (h12 : t1 ≤ t2) (h23 : t2 ≤ t3) :
    (((GameTimer.init.start t0).pause t1).resume t2).get_elapsed_seconds t3
      = ⌊(t1 - t0) + (t3 - t2)⌋ := by
  show pyInt (0 + (t1 - t0) + (t3 - t2)) = ⌊(t1 - t0) + (t3 - t2)⌋
  have h : ¬ ((0 : ℚ) + (t1 - t0) + (t3 - t2) < 0) := by push_neg; linarith
  rw [pyInt, if_neg h]
  norm_num

/-- Witness for `timer_elapsed_excludes_pause`: started at 0, paused at
5, resumed at 8, queried at 10, the timer reports 7 whole seconds. -/
theorem timer_elapsed_excludes_pause_witness :
    (0 : ℚ) ≤ 5 ∧ (5 : ℚ) ≤ 8 ∧ (8 : ℚ) ≤ 10 ∧
    (((GameTimer.init.start 0).pause 5).resume 8).get_elapsed_seconds 10 = 7 := by
  refine ⟨by norm_num, by norm_num, by norm_num, ?_⟩
  have h := timer_elapsed_excludes_pause 0 5 8 10 (by norm_num) (by norm_num) (by norm_num)
  rw [h]
  norm_num

/-- Witness for `configuration_error_conditions`: concrete bounds, and
a board whose safe zone swallows the whole grid so that placement must
fail. -/
theorem configuration_error_conditions_witness :
    ({ fallbackBoard with safe_zone_radius := 10 } : Board).in_bounds 0 0 = true ∧
    ((({ fallbackBoard with safe_zone_radius := 10 } : Board).eligiblePositions 0 0).length : Int) <
      ({ fallbackBoard with safe_zone_radius := 10 } : Board).mine_count ∧
    Board.place_mines id { fallbackBoard with safe_zone_radius := 10 } 0 0
      = Except.error BoardError.ConfigurationError :=
  ⟨by decide, by decide,
    (configuration_error_conditions 5 5 2 0 true id
      { fallbackBoard with safe_zone_radius := 10 } 0 0).2 (by decide) (by decide)⟩

theorem state_setTileState_same (b : Board) (x y : Int) (s : TileState) :
    ((b.setTileState x y s).tiles x y).state = s := by
  rw [setTileState_tiles]
  simp

theorem setTileState_eq_self {b : Board} {x y : Int} {st : TileState}
    (h : (b.tiles x y).state = st) : b.setTileState x y st = b := by
  unfold Board.setTileState Board.setTile
  cases b with
  | mk w hh mc r q tls mg =>
    simp only
    congr 1
    funext x' y'
    by_cases hp : x' = x ∧ y' = y
    · obtain ⟨h1, h2⟩ := hp
      subst h1; subst h2
      simp only at h
      rw [if_pos ⟨rfl, rfl⟩, ← h]
    · rw [if_neg hp]

theorem setTileState_setTileState (b : Board) (x y : Int) (s s' : TileState) :
    (b.setTileState x y s).setTileState x y s' = b.setTileState x y s' := by
  unfold Board.setTileState Board.setTile
  cases b with
  | mk w hh mc r q tls mg =>
    simp only
    congr 1
    funext x' y'
    by_cases hp : x' = x ∧ y' = y
    · obtain ⟨h1, h2⟩ := hp
      subst h1; subst h2
      simp
    · simp only [if_neg hp]

theorem use_question_marks_setTileState (b : Board) (x y : Int) (s : TileState) :
    (b.setTileState x y s).use_question_marks = b.use_question_marks := rfl

theorem toggle_flag_revealed {b : Board} {x y : Int}
    (hin : b.in_bounds x y = true)
    (h : (b.tiles x y).state = TileState.REVEALED) :
    b.toggle_flag x y = Except.ok (0, b) := by
  unfold Board.toggle_flag
  rw [if_neg (by simp [hin]), if_pos h]

theorem toggle_flag_hidden {b : Board} {x y : Int}
    (hin : b.in_bounds x y = true)
    (h : (b.tiles x y).state = TileState.HIDDEN) :
    b.toggle_flag x y = Except.ok (1, b.setTileState x y TileState.FLAGGED) := by
  unfold Board.toggle_flag
  rw [if_neg (by simp [hin]), if_neg (by simp [h]), if_pos h]

theorem toggle_flag_flagged {b : Board} {x y : Int}
    (hin : b.in_bounds x y = true)
    (h : (b.tiles x y).state = TileState.FLAGGED) :
    b.toggle_flag x y = Except.ok (-1, b.setTileState x y
      (if b.use_question_marks then TileState.QUESTION else TileState.HIDDEN)) := by
  unfold Board.toggle_flag
  rw [if_neg (by simp [hin]), if_neg (by simp [h]), if_neg (by simp [h]), if_pos h]
  by_cases hq : b.use_question_marks = true
  · rw [if_pos hq, if_pos hq]
  · rw [if_neg hq, if_neg hq]

theorem toggle_flag_question {b : Board} {x y : Int}
    (hin : b.in_bounds x y = true)
    (h : (b.tiles x y).state = TileState.QUESTION) :
    b.toggle_flag x y = Except.ok (0, b.setTileState x y TileState.HIDDEN) := by
  unfold Board.toggle_flag
  rw [if_neg (by simp [hin]), if_neg (by simp [h]), if_neg (by simp [h]),
    if_neg (by simp [h]), if_pos h]

theorem toggle_flag_flagged_qm {b : Board} {x y : Int}
    (hin : b.in_bounds x y = true)
    (h : (b.tiles x y).state = TileState.FLAGGED)
    (hq : b.use_question_marks = true) :
    b.toggle_flag x y = Except.ok (-1, b.setTileState x y TileState.QUESTION) := by
  rw [toggle_flag_flagged hin h, if_pos hq]

theorem toggle_flag_flagged_noqm {b : Board} {x y : Int}
    (hin : b.in_bounds x y = true)
    (h : (b.tiles x y).state = TileState.FLAGGED)
    (hq : b.use_question_marks = false) :
    b.toggle_flag x y = Except.ok (-1, b.setTileState x y TileState.HIDDEN) := by
  rw [toggle_flag_flagged hin h, if_neg (by simp [hq])]

/-- C5 (amended): on an in-bounds cell `toggle_flag` is a no-op with
delta `0` on a `REVEALED` tile no matter how often it is called, and
otherwise steps the marking cycle — `HIDDEN → FLAGGED` (delta `+1`),
`FLAGGED → QUESTION` if question marks are enabled else
`FLAGGED → HIDDEN` (delta `-1` either way), `QUESTION → HIDDEN`
(delta `0`) — so three consecutive calls (question marks enabled, any
non-`REVEALED` start) or two consecutive calls (question marks
disabled, a `HIDDEN` or `FLAGGED` start; a `QUESTION` tile cannot arise
on such a board) return the tile to its starting state with deltas
summing to `0`. -/
theorem toggle_mark_cycle (b : Board) (x y : Int) (hin : b.in_bounds x y = true) :
    ((b.tiles x y).state = TileState.REVEALED →
      ∀ n, b.toggleSeq x y n = Except.ok (List.replicate n 0, b)) ∧
    ((b.tiles x y).state = TileState.HIDDEN →
      b.toggle_flag x y = Except.ok (1, b.setTileState x y TileState.FLAGGED)) ∧
    ((b.tiles x y).state = TileState.FLAGGED →
      b.toggle_flag x y = Except.ok (-1, b.setTileState x y
        (if b.use_question_marks then TileState.QUESTION else TileState.HIDDEN))) ∧
    ((b.tiles x y).state = TileState.QUESTION →
      b.toggle_flag x y = Except.ok (0, b.setTileState x y TileState.HIDDEN)) ∧
    (b.use_question_marks = true → ¬ (b.tiles x y).state = TileState.REVEALED →
      ∃ ds, b.toggleSeq x y 3 = Except.ok (ds, b) ∧ ds.sum = 0) ∧
    (b.use_question_marks = false →
      ((b.tiles x y).state = TileState.HIDDEN ∨ (b.tiles x y).state = TileState.FLAGGED) →
      ∃ ds, b.toggleSeq x y 2 = Except.ok (ds, b) ∧ ds.sum = 0) := by
  have hin' : ∀ s, (b.setTileState x y s).in_bounds x y = true := fun _ => hin
  refine ⟨?_, fun h => toggle_flag_hidden hin h, fun h => toggle_flag_flagged hin h,
    fun h => toggle_flag_question hin h, ?_, ?_⟩
  · intro h n
    induction n with
    | zero => rfl
    | succ n ih =>
      simp only [Board.toggleSeq, toggle_flag_revealed hin h, ih, List.replicate_succ]
  · intro hq hnr
    cases hst : (b.tiles x y).state with
    | REVEALED => exact absurd hst hnr
    | HIDDEN =>
      refine ⟨[1, -1, 0], ?_, by norm_num⟩
      simp only [Board.toggleSeq, toggle_flag_hidden hin hst,
        toggle_flag_flagged_qm (hin' TileState.FLAGGED)
          (state_setTileState_same b x y TileState.FLAGGED) hq,
        setTileState_setTileState,
        toggle_flag_question (hin' TileState.QUESTION)
          (state_setTileState_same b x y TileState.QUESTION),
        setTileState_eq_self hst]
    | FLAGGED =>
      refine ⟨[-1, 0, 1], ?_, by norm_num⟩
      simp only [Board.toggleSeq, toggle_flag_flagged_qm hin hst hq,
        toggle_flag_question (hin' TileState.QUESTION)
          (state_setTileState_same b x y TileState.QUESTION),
        setTileState_setTileState,
        toggle_flag_hidden (hin' TileState.HIDDEN)
          (state_setTileState_same b x y TileState.HIDDEN),
        setTileState_eq_self hst]
    | QUESTION =>
      refine ⟨[0, 1, -1], ?_, by norm_num⟩
      simp only [Board.toggleSeq, toggle_flag_question hin hst,
        toggle_flag_hidden (hin' TileState.HIDDEN)
          (state_setTileState_same b x y TileState.HIDDEN),
        setTileState_setTileState,
        toggle_flag_flagged_qm (hin' TileState.FLAGGED)
          (state_setTileState_same b x y TileState.FLAGGED) hq,
        setTileState_eq_self hst]
  · intro hq hst
    rcases hst with hst | hst
    · refine ⟨[1, -1], ?_, by norm_num⟩
      simp only [Board.toggleSeq, toggle_flag_hidden hin hst,
        toggle_flag_flagged_noqm (hin' TileState.FLAGGED)
          (state_setTileState_same b x y TileState.FLAGGED) hq,
        setTileState_setTileState, setTileState_eq_self hst]
    · refine ⟨[-1, 1], ?_, by norm_num⟩
      simp only [Board.toggleSeq, toggle_flag_flagged_noqm hin hst hq,
        toggle_flag_hidden (hin' TileState.HIDDEN)
          (state_setTileState_same b x y TileState.HIDDEN),
        setTileState_setTileState, setTileState_eq_self hst]

/-- Counterexample to C5 as stated: on `questionBoard` (question marks
disabled, corner tile marked `QUESTION`) two consecutive `toggle_flag`
calls do not return the non-`REVEALED` corner tile to its starting
state — it ends `FLAGGED` — and the deltas sum to `1`, not `0`. -/
theorem toggle_mark_cycle_counterexample :
    questionBoard.in_bounds 0 0 = true ∧
    questionBoard.use_question_marks = false ∧
    (questionBoard.tiles 0 0).state = TileState.QUESTION ∧
    ∀ ds b', questionBoard.toggleSeq 0 0 2 = Except.ok (ds, b') →
      (b'.tiles 0 0).state = TileState.FLAGGED ∧ ds.sum = 1 := by
  refine ⟨by decide, rfl, by decide, ?_⟩
  intro ds b' h
  rw [show questionBoard.toggleSeq 0 0 2
      = Except.ok ([(0 : Int), 1],
        (questionBoard.setTileState 0 0 TileState.HIDDEN).setTileState 0 0
          TileState.FLAGGED) from rfl] at h
  injection h with h1
  injection h1 with h2 h3
  subst h2
  subst h3
  exact ⟨by decide, by decide⟩

/-- Witness for `toggle_mark_cycle` at the corner of the concrete
demo board. -/
theorem toggle_mark_cycle_witness :
    demoBoard.in_bounds 0 0 = true ∧
    ((demoBoard.tiles 0 0).state = TileState.HIDDEN →
      demoBoard.toggle_flag 0 0
        = Except.ok (1, demoBoard.setTileState 0 0 TileState.FLAGGED)) :=
  ⟨by decide, (toggle_mark_cycle demoBoard 0 0 (by decide)).2.1⟩

theorem Board_create_ok_facts {w h mc r : Int} {q : Bool} {b : Board}
    (hc : Board.create w h mc r q = Except.ok b) :
    Board.validate_dimensions w h mc = none ∧ ¬ r < 0 := by
  unfold Board.create at hc
  rcases hv : Board.validate_dimensions w h mc with _ | e <;> rw [hv] at hc
  · split_ifs at hc with hr
    exact ⟨rfl, hr⟩
  · exact absurd hc (by simp)

theorem create_ok_facts {st : SessionSettings} {s : GameSession}
    (hc : GameSession.create st = Except.ok s) :
    1 ≤ st.mine_count ∧ s.settings = st ∧ s.remaining_flags = st.mine_count := by
  unfold GameSession.create at hc
  rcases hb : GameSession.create_board st with e | b <;> rw [hb] at hc
  · exact absurd hc (by simp)
  · have hv := (Board_create_ok_facts hb).1
    have hmc := ((validate_dimensions_eq_none_iff ..).mp hv).2.2.1
    rw [MIN_MINES] at hmc
    refine ⟨hmc, ?_, ?_⟩ <;> injection hc with hc <;> rw [← hc]

theorem open_tile_keeps_flags (shuffle : List (Int × Int) → List (Int × Int))
    (s : GameSession) (x y : Int) (now : ℚ) :
    (s.open_tile shuffle x y now).2.remaining_flags = s.remaining_flags ∧
    (s.open_tile shuffle x y now).2.settings = s.settings ∧
    (s.open_tile shuffle x y now).2.is_paused = s.is_paused := by
  unfold GameSession.open_tile
  split_ifs with h1 h2 <;> try exact ⟨rfl, rfl, rfl⟩
  all_goals dsimp only
  all_goals split
  · exact ⟨rfl, rfl, rfl⟩
  · split_ifs <;> exact ⟨rfl, rfl, rfl⟩
  · exact ⟨rfl, rfl, rfl⟩
  · split_ifs <;> exact ⟨rfl, rfl, rfl⟩

theorem toggle_flag_keeps_range (s : GameSession) (x y : Int)
    (hmc : 0 ≤ s.settings.mine_count) (h0 : 0 ≤ s.remaining_flags)
    (h1 : s.remaining_flags ≤ s.settings.mine_count) :
    0 ≤ (s.toggle_flag x y).2.remaining_flags ∧
    (s.toggle_flag x y).2.remaining_flags ≤ s.settings.mine_count ∧
    (s.toggle_flag x y).2.settings = s.settings := by
  unfold GameSession.toggle_flag
  split_ifs with hguard
  · split
    · exact ⟨h0, h1, rfl⟩
    · dsimp only
      split_ifs with hd hlo hhi <;> (dsimp only; refine ⟨?_, ?_, rfl⟩ <;> omega)
  · exact ⟨h0, h1, rfl⟩

theorem pause_keeps_flags (s : GameSession) (now : ℚ) :
    (s.pause now).remaining_flags = s.remaining_flags ∧
    (s.pause now).settings = s.settings := by
  unfold GameSession.pause
  split_ifs <;> exact ⟨rfl, rfl⟩

theorem resume_keeps_flags (s : GameSession) (now : ℚ) :
    (s.resume now).remaining_flags = s.remaining_flags ∧
    (s.resume now).settings = s.settings := by
  unfold GameSession.resume
  split_ifs <;> exact ⟨rfl, rfl⟩

theorem restart_keeps_range (s : GameSession)
    (hmc : 0 ≤ s.settings.mine_count) (h0 : 0 ≤ s.remaining_flags)
    (h1 : s.remaining_flags ≤ s.settings.mine_count) :
    0 ≤ s.restart.2.remaining_flags ∧
    s.restart.2.remaining_flags ≤ s.settings.mine_count ∧
    s.restart.2.settings = s.settings := by
  unfold GameSession.restart
  rcases hm : GameSession.create_board s.settings with e | b <;> simp only [hm] <;>
    exact ⟨by omega, by omega, by trivial⟩

theorem applyOp_keeps_range (s : GameSession) (op : SessionOp)
    (hmc : 0 ≤ s.settings.mine_count) (h0 : 0 ≤ s.remaining_flags)
    (h1 : s.remaining_flags ≤ s.settings.mine_count) :
    0 ≤ (s.applyOp op).remaining_flags ∧
    (s.applyOp op).remaining_flags ≤ (s.applyOp op).settings.mine_count ∧
    (s.applyOp op).settings = s.settings := by
  cases op with
  | reveal shuffle x y now =>
    obtain ⟨ha, hb, _⟩ := open_tile_keeps_flags shuffle s x y now
    exact ⟨by rw [GameSession.applyOp, ha]; exact h0,
      by rw [GameSession.applyOp, ha, hb]; exact h1,
      by rw [GameSession.applyOp, hb]⟩
  | mark x y =>
    obtain ⟨ha, hb, hc⟩ := toggle_flag_keeps_range s x y hmc h0 h1
    exact ⟨ha, by rw [GameSession.applyOp, hc]; exact hb, hc⟩
  | pauseAt now =>
    obtain ⟨ha, hb⟩ := pause_keeps_flags s now
    exact ⟨by rw [GameSession.applyOp, ha]; exact h0,
      by rw [GameSession.applyOp, ha, hb]; exact h1,
      by rw [GameSession.applyOp, hb]⟩
  | resumeAt now =>
    obtain ⟨ha, hb⟩ := resume_keeps_flags s now
    exact ⟨by rw [GameSession.applyOp, ha]; exact h0,
      by rw [GameSession.applyOp, ha, hb]; exact h1,
      by rw [GameSession.applyOp, hb]⟩
  | restart =>
    obtain ⟨ha, hb, hc⟩ := restart_keeps_range s hmc h0 h1
    exact ⟨ha, by rw [GameSession.applyOp, hc]; exact hb, hc⟩

/-- C7: starting from any validly constructed session, after any finite
sequence of view-layer operations (`reveal`/`toggle_mark`/`pause`/
`resume`/`restart`, i.e. any interleaving around the `toggle_mark`
calls) `remaining_flags` lies in `[0, mine_count]`; it starts at
`mine_count`; and a non-zero toggle delta is subtracted and clamped
back into the interval exactly as the source writes it, a zero delta
leaving the counter untouched. -/
theorem remaining_flags_in_range (st : SessionSettings) (s0 : GameSession)
    (hc : GameSession.create st = Except.ok s0) (ops : List SessionOp) :
    s0.remaining_flags = st.mine_count ∧
    (0 ≤ (s0.applyOps ops).remaining_flags ∧
      (s0.applyOps ops).remaining_flags ≤ st.mine_count) ∧
    (∀ s : GameSession, ∀ x y : Int, ∀ d : Int, ∀ b : Board,
      s.ensure_can_play = true → GameRules.toggle_flag s.board x y = Except.ok (d, b) →
      (s.toggle_flag x y).2.remaining_flags =
        (if d ≠ 0 then
          (if s.remaining_flags - d < 0 then 0
            else if s.remaining_flags - d > s.settings.mine_count then s.settings.mine_count
            else s.remaining_flags - d)
          else s.remaining_flags)) := by
  obtain ⟨hmc, hset, hrf⟩ := create_ok_facts hc
  refine ⟨hrf, ?_, ?_⟩
  · have main : ∀ (l : List SessionOp) (s : GameSession),
        0 ≤ s.settings.mine_count → 0 ≤ s.remaining_flags →
        s.remaining_flags ≤ s.settings.mine_count →
        (0 ≤ (s.applyOps l).remaining_flags ∧
          (s.applyOps l).remaining_flags ≤ (s.applyOps l).settings.mine_count ∧
          (s.applyOps l).settings = s.settings) := by
      intro l
      induction l with
      | nil => intro s hmc' h0 h1; exact ⟨h0, h1, rfl⟩
      | cons op rest ih =>
        intro s hmc' h0 h1
        obtain ⟨ha, hb, hcs⟩ := applyOp_keeps_range s op hmc' h0 h1
        have hmc'' : 0 ≤ (s.applyOp op).settings.mine_count := by rw [hcs]; exact hmc'
        obtain ⟨ra, rb, rc⟩ := ih (s.applyOp op) hmc'' ha (by rw [hcs] at hb ⊢; exact hb)
        have hstep : s.applyOps (op :: rest) = (s.applyOp op).applyOps rest := rfl
        rw [hstep]
        exact ⟨ra, rb, by rw [rc, hcs]⟩
    obtain ⟨ra, rb, rc⟩ := main ops s0 (by rw [hset]; omega) (by omega) (by rw [hset]; omega)
    rw [rc, hset] at rb
    exact ⟨ra, rb⟩
  · intro s x y d b hcan hm
    unfold GameSession.toggle_flag
    rw [if_neg (by simp [hcan]), hm]
    dsimp only
    split_ifs <;> first
      | rfl
      | (dsimp only; omega)

/-- Witness for `remaining_flags_in_range`: the demo session with one
toggle-mark call. -/
theorem remaining_flags_in_range_witness :
    GameSession.create demoSettings = Except.ok demoSession ∧
    demoSession.remaining_flags = demoSettings.mine_count ∧
    (0 ≤ (demoSession.applyOps [SessionOp.mark 0 0]).remaining_flags ∧
      (demoSession.applyOps [SessionOp.mark 0 0]).remaining_flags
        ≤ demoSettings.mine_count) :=
  ⟨rfl, (remaining_flags_in_range demoSettings demoSession rfl [SessionOp.mark 0 0]).1,
    (remaining_flags_in_range demoSettings demoSession rfl [SessionOp.mark 0 0]).2.1⟩

theorem setMine_tiles (b : Board) (p : Int × Int) (x y : Int) :
    (b.setMine p).tiles x y
      = if x = p.1 ∧ y = p.2 then
          { b.tiles p.1 p.2 with is_mine := true, content := TileContent.MINE }
        else b.tiles x y := rfl

theorem foldl_setMine_scalars (ps : List (Int × Int)) (b : Board) :
    (ps.foldl Board.setMine b).width = b.width ∧
    (ps.foldl Board.setMine b).height = b.height ∧
    (ps.foldl Board.setMine b).safe_zone_radius = b.safe_zone_radius := by
  induction ps generalizing b with
  | nil => exact ⟨rfl, rfl, rfl⟩
  | cons p rest ih =>
    rw [List.foldl_cons]
    exact ih (b.setMine p)

theorem foldl_setMine_state (ps : List (Int × Int)) (b : Board) (x y : Int) :
    ((ps.foldl Board.setMine b).tiles x y).state = (b.tiles x y).state := by
  induction ps generalizing b with
  | nil => rfl
  | cons p rest ih =>
    rw [List.foldl_cons, ih]
    rw [setMine_tiles]
    split_ifs with hp
    · obtain ⟨h1, h2⟩ := hp
      subst h1; subst h2
      rfl
    · rfl

theorem setMine_is_mine (b : Board) (p : Int × Int) (x y : Int) :
    ((b.setMine p).tiles x y).is_mine = true ↔
      ((x, y) = p ∨ (b.tiles x y).is_mine = true) := by
  rw [setMine_tiles]
  split_ifs with hp
  · obtain ⟨h1, h2⟩ := hp
    subst h1; subst h2
    simp
  · simp only [iff_or_self]
    intro he
    exact absurd ⟨congrArg Prod.fst he, congrArg Prod.snd he⟩ hp

theorem foldl_setMine_is_mine (ps : List (Int × Int)) (b : Board) (x y : Int) :
    ((ps.foldl Board.setMine b).tiles x y).is_mine = true ↔
      ((x, y) ∈ ps ∨ (b.tiles x y).is_mine = true) := by
  induction ps generalizing b with
  | nil => simp
  | cons p rest ih =>
    rw [List.foldl_cons, ih, setMine_is_mine, List.mem_cons]
    tauto

theorem recalc_tiles (b : Board) (x y : Int) :
    (b.recalculate_adjacent_mines).tiles x y =
      if b.in_bounds x y = true then
        (if (b.tiles x y).is_mine = true then
          { b.tiles x y with adjacent_mines := 0, content := TileContent.MINE }
        else
          { b.tiles x y with
            adjacent_mines := (b.minesAround x y : Int)
            content :=
              if b.minesAround x y = 0 then TileContent.EMPTY
              else TileContent.NUMBER })
      else b.tiles x y := rfl

theorem recalc_is_mine (b : Board) (x y : Int) :
    ((b.recalculate_adjacent_mines).tiles x y).is_mine = (b.tiles x y).is_mine := by
  rw [recalc_tiles]
  split_ifs <;> rfl

theorem recalc_state (b : Board) (x y : Int) :
    ((b.recalculate_adjacent_mines).tiles x y).state = (b.tiles x y).state := by
  rw [recalc_tiles]
  split_ifs <;> rfl

theorem get_neighbors_congr {b1 b2 : Board} (hw : b1.width = b2.width)
    (hh : b1.height = b2.height) (x y : Int) :
    b1.get_neighbors x y = b2.get_neighbors x y := by
  unfold Board.get_neighbors Board.in_bounds
  rw [hw, hh]

theorem minesAround_congr {b1 b2 : Board} (hw : b1.width = b2.width)
    (hh : b1.height = b2.height)
    (hm : ∀ x y, (b1.tiles x y).is_mine = (b2.tiles x y).is_mine) (x y : Int) :
    b1.minesAround x y = b2.minesAround x y := by
  unfold Board.minesAround
  rw [get_neighbors_congr hw hh]
  exact List.countP_congr fun p _ => by rw [hm]

theorem place_mines_ok_spec {shuffle : List (Int × Int) → List (Int × Int)}
    {b b' : Board} {sx sy : Int}
    (hok : Board.place_mines shuffle b sx sy = Except.ok b') :
    b' = { (((shuffle (b.eligiblePositions sx sy)).take b.mine_count.toNat).foldl
            Board.setMine b.reset_tiles).recalculate_adjacent_mines
          with mines_generated := true } ∧
    b.in_bounds sx sy = true ∧
    ¬ ((b.eligiblePositions sx sy).length : Int) < b.mine_count := by
  unfold Board.place_mines at hok
  by_cases hin : ¬ b.in_bounds sx sy = true
  · rw [if_pos hin] at hok
    exact absurd hok (by simp)
  · rw [if_neg hin] at hok
    dsimp only at hok
    rw [eligible_reset] at hok
    have hmcr : b.reset_tiles.mine_count = b.mine_count := rfl
    rw [hmcr] at hok
    by_cases hlen : ((b.eligiblePositions sx sy).length : Int) < b.mine_count
    · rw [if_pos hlen] at hok
      exact absurd hok (by simp)
    · rw [if_neg hlen] at hok
      injection hok with hok
      exact ⟨hok.symm, by simpa using hin, hlen⟩

/-- C1: for a validly constructed board and a successful (lazy)
placement with a permuting random source, no mine lies within Chebyshev
distance `safe_zone_radius` of the seed cell, and exactly `mine_count`
tiles of the board are mines. -/
theorem place_mines_safe_zone_and_count
    (shuffle : List (Int × Int) → List (Int × Int))
    (hperm : ∀ l, List.Perm (shuffle l) l)
    (w h mc r : Int) (q : Bool) (b b' : Board) (sx sy : Int)
    (hb : Board.create w h mc r q = Except.ok b)
    (hok : Board.place_mines shuffle b sx sy = Except.ok b') :
    (∀ x y : Int, b.is_in_safe_zone x y sx sy = true →
      (b'.tiles x y).is_mine = false) ∧
    (b'.countMines : Int) = b.mine_count := by
  obtain ⟨hb', hin, hlen⟩ := place_mines_ok_spec hok
  have hmc1 : 1 ≤ b.mine_count := by
    unfold Board.create at hb
    rcases hv : Board.validate_dimensions w h mc with _ | e <;> rw [hv] at hb
    · have := ((validate_dimensions_eq_none_iff ..).mp hv).2.2.1
      rw [MIN_MINES] at this
      split_ifs at hb
      injection hb with hb
      rw [← hb]
      exact this
    · exact absurd hb (by simp)
  set elig := b.eligiblePositions sx sy with helig
  set mps := (shuffle elig).take b.mine_count.toNat with hmps
  have hpe : List.Perm (shuffle elig) elig := hperm elig
  have hsub1 : List.Sublist mps (shuffle elig) := List.take_sublist ..
  have hnodup_all : b.allPositions.Nodup := nodup_allPositions b
  have hnelig : elig.Nodup := hnodup_all.filter _
  have hnmps : mps.Nodup := (hpe.nodup_iff.mpr hnelig).sublist hsub1
  have hmpselig : ∀ p ∈ mps, p ∈ elig := fun p hp => hpe.mem_iff.mp (hsub1.mem hp)
  have heligfacts : ∀ p ∈ elig, p ∈ b.allPositions ∧
      ¬ b.is_in_safe_zone p.1 p.2 sx sy = true := by
    intro p hp
    rw [helig] at hp
    unfold Board.eligiblePositions at hp
    rw [List.mem_filter] at hp
    exact ⟨hp.1, by simpa using hp.2⟩
  have htiles : ∀ x y : Int, b'.tiles x y
      = ((mps.foldl Board.setMine b.reset_tiles).recalculate_adjacent_mines).tiles x y := by
    intro x y
    rw [hb']
  have hmine_iff : ∀ x y : Int, ((b'.tiles x y).is_mine = true ↔ (x, y) ∈ mps) := by
    intro x y
    rw [htiles, recalc_is_mine, foldl_setMine_is_mine]
    have : ((b.reset_tiles.tiles x y).is_mine = true) ↔ False := by
      unfold Board.reset_tiles
      simp
    rw [this, or_false]
  constructor
  · intro x y hsafe
    cases hmi : (b'.tiles x y).is_mine
    · rfl
    · exfalso
      have hmem := (hmine_iff x y).mp hmi
      exact (heligfacts _ (hmpselig _ hmem)).2 hsafe
  · have hW : b'.width = b.width := by
      rw [hb']
      exact (foldl_setMine_scalars mps b.reset_tiles).1
    have hH : b'.height = b.height := by
      rw [hb']
      exact (foldl_setMine_scalars mps b.reset_tiles).2.1
    have hall : b'.allPositions = b.allPositions := allPositions_congr hW hH
    have hcount : b'.countMines = mps.length := by
      unfold Board.countMines
      rw [hall]
      have hc1 : (b.allPositions.countP fun p => (b'.tiles p.1 p.2).is_mine)
          = b.allPositions.countP fun p => decide ((p.1, p.2) ∈ mps) := by
        refine List.countP_congr fun p _ => ?_
        rw [hmine_iff p.1 p.2]
        simp
      rw [hc1]
      rw [List.countP_eq_length_filter]
      have hpfilter : List.Perm (b.allPositions.filter fun p => decide ((p.1, p.2) ∈ mps)) mps := by
        refine (List.perm_ext_iff_of_nodup (hnodup_all.filter _) hnmps).mpr ?_
        intro p
        rw [List.mem_filter]
        simp only [decide_eq_true_eq]
        constructor
        · rintro ⟨_, hp⟩
          exact hp
        · intro hp
          exact ⟨(heligfacts _ (hmpselig _ hp)).1, hp⟩
      exact hpfilter.length_eq
    have hlentake : mps.length = b.mine_count.toNat := by
      rw [hmps]
      rw [List.length_take]
      have hle : (elig.length : Int) ≥ b.mine_count := by omega
      have := hpe.length_eq
      omega
    rw [hcount, hlentake]
    omega

/-- Witness for `place_mines_safe_zone_and_count`: the identity-shuffled
placement on the 5×5, 2-mine, radius-0 demo board. -/
theorem place_mines_safe_zone_and_count_witness :
    Board.create 5 5 2 0 true = Except.ok demoBoard ∧
    Board.place_mines id demoBoard 0 0 = Except.ok demoPlaced ∧
    (∀ x y : Int, demoBoard.is_in_safe_zone x y 0 0 = true →
      (demoPlaced.tiles x y).is_mine = false) ∧
    (demoPlaced.countMines : Int) = demoBoard.mine_count :=
  ⟨rfl, rfl,
    (place_mines_safe_zone_and_count id (fun l => List.Perm.refl l) 5 5 2 0 true
      demoBoard demoPlaced 0 0 rfl rfl).1,
    (place_mines_safe_zone_and_count id (fun l => List.Perm.refl l) 5 5 2 0 true
      demoBoard demoPlaced 0 0 rfl rfl).2⟩

/-- C3 (amended): after a successful placement, every non-mine tile's
`adjacent_mines` is the exact count of its mine neighbors and its
content is `EMPTY`/`NUMBER`; every mine tile has `adjacent_mines = 0`
(not its true neighbor-mine count) and content `MINE`; and
`content = MINE` holds iff `is_mine`, for every tile. -/
theorem adjacency_after_placement
    (shuffle : List (Int × Int) → List (Int × Int)) (b b' : Board) (sx sy : Int)
    (hok : Board.place_mines shuffle b sx sy = Except.ok b') :
    ∀ x y : Int, b'.in_bounds x y = true →
      ((b'.tiles x y).is_mine = false →
        (b'.tiles x y).adjacent_mines = (b'.minesAround x y : Int) ∧
        (b'.tiles x y).content
          = (if b'.minesAround x y = 0 then TileContent.EMPTY else TileContent.NUMBER)) ∧
      ((b'.tiles x y).is_mine = true → (b'.tiles x y).adjacent_mines = 0) ∧
      ((b'.tiles x y).content = TileContent.MINE ↔ (b'.tiles x y).is_mine = true) := by
  obtain ⟨hb', hin, hlen⟩ := place_mines_ok_spec hok
  set mps := (shuffle (b.eligiblePositions sx sy)).take b.mine_count.toNat with hmps
  set bm := mps.foldl Board.setMine b.reset_tiles with hbm
  have htiles : ∀ x y : Int, b'.tiles x y = bm.recalculate_adjacent_mines.tiles x y := by
    intro x y
    rw [hb']
  have hW : b'.width = bm.width := by rw [hb']; rfl
  have hH : b'.height = bm.height := by rw [hb']; rfl
  have hinb : ∀ x y : Int, b'.in_bounds x y = bm.in_bounds x y := by
    intro x y
    unfold Board.in_bounds
    rw [hW, hH]
  have hmm : ∀ x y : Int, (b'.tiles x y).is_mine = (bm.tiles x y).is_mine := by
    intro x y
    rw [htiles, recalc_is_mine]
  have hma : ∀ x y : Int, b'.minesAround x y = bm.minesAround x y :=
    minesAround_congr hW hH hmm
  intro x y hxy
  rw [hinb] at hxy
  have ht := htiles x y
  rw [recalc_tiles, if_pos hxy] at ht
  by_cases hm : (bm.tiles x y).is_mine = true
  · rw [if_pos hm] at ht
    refine ⟨?_, ?_, ?_⟩
    · intro hfalse
      rw [hmm, hm] at hfalse
      cases hfalse
    · intro _
      rw [ht]
    · rw [hmm, hm]
      rw [ht]
      dsimp only
      simp
  · rw [if_neg hm] at ht
    refine ⟨?_, ?_, ?_⟩
    · intro _
      rw [ht, hma]
      exact ⟨rfl, rfl⟩
    · intro htrue
      rw [hmm] at htrue
      exact absurd htrue hm
    · constructor
      · intro hcon
        rw [ht] at hcon
        dsimp only at hcon
        split_ifs at hcon <;> cases hcon
      · intro hcon
        rw [hmm] at hcon
        exact absurd hcon hm

/-- Counterexample to C3 as stated: on `demoPlaced` the mines sit on
the adjacent cells `(1, 0)` and `(2, 0)`, so the mine tile `(1, 0)` has
exactly one mine neighbor, yet its `adjacent_mines` is `0`. -/
theorem adjacency_counterexample :
    Board.place_mines id demoBoard 0 0 = Except.ok demoPlaced ∧
    (demoPlaced.tiles 1 0).is_mine = true ∧
    demoPlaced.minesAround 1 0 = 1 ∧
    (demoPlaced.tiles 1 0).adjacent_mines = 0 :=
  ⟨rfl, by decide, by decide, by decide⟩

/-- Witness for `adjacency_after_placement` at the cell `(0, 0)` of the
concrete placed demo board. -/
theorem adjacency_after_placement_witness :
    Board.place_mines id demoBoard 0 0 = Except.ok demoPlaced ∧
    demoPlaced.in_bounds 0 0 = true ∧
    ((demoPlaced.tiles 0 0).is_mine = false →
      (demoPlaced.tiles 0 0).adjacent_mines = (demoPlaced.minesAround 0 0 : Int) ∧
      (demoPlaced.tiles 0 0).content
        = (if demoPlaced.minesAround 0 0 = 0 then TileContent.EMPTY
            else TileContent.NUMBER)) :=
  ⟨rfl, by decide,
    (adjacency_after_placement id demoBoard demoPlaced 0 0 rfl 0 0 (by decide)).1⟩

theorem floodLoop_nil (b : Board) (ch : List (Int × Int)) :
    Board.floodLoop b [] ch = (b, ch) := by
  rw [Board.floodLoop]

theorem floodLoop_skip_oob {b : Board} {cx cy : Int} (rest ch : List (Int × Int))
    (h : ¬ b.in_bounds cx cy = true) :
    Board.floodLoop b ((cx, cy) :: rest) ch = Board.floodLoop b rest ch := by
  rw [Board.floodLoop]
  rw [dif_neg h]

theorem floodLoop_skip_revealed {b : Board} {cx cy : Int} (rest ch : List (Int × Int))
    (hin : b.in_bounds cx cy = true)
    (hrev : (b.tiles cx cy).state = TileState.REVEALED) :
    Board.floodLoop b ((cx, cy) :: rest) ch = Board.floodLoop b rest ch := by
  rw [Board.floodLoop]
  rw [dif_pos hin, dif_pos hrev]

theorem floodLoop_skip_marked {b : Board} {cx cy : Int} (rest ch : List (Int × Int))
    (hin : b.in_bounds cx cy = true)
    (hrev : ¬ (b.tiles cx cy).state = TileState.REVEALED)
    (hmark : (b.tiles cx cy).state = TileState.FLAGGED ∨
      (b.tiles cx cy).state = TileState.QUESTION) :
    Board.floodLoop b ((cx, cy) :: rest) ch = Board.floodLoop b rest ch := by
  rw [Board.floodLoop]
  rw [dif_pos hin, dif_neg hrev, dif_pos hmark]

theorem floodLoop_skip_mine {b : Board} {cx cy : Int} (rest ch : List (Int × Int))
    (hin : b.in_bounds cx cy = true)
    (hrev : ¬ (b.tiles cx cy).state = TileState.REVEALED)
    (hmark : ¬ ((b.tiles cx cy).state = TileState.FLAGGED ∨
      (b.tiles cx cy).state = TileState.QUESTION))
    (hmine : (b.tiles cx cy).is_mine = true) :
    Board.floodLoop b ((cx, cy) :: rest) ch = Board.floodLoop b rest ch := by
  rw [Board.floodLoop]
  rw [dif_pos hin, dif_neg hrev, dif_neg hmark, dif_pos hmine]

theorem floodLoop_reveal_num {b : Board} {cx cy : Int} (rest ch : List (Int × Int))
    (hin : b.in_bounds cx cy = true)
    (hrev : ¬ (b.tiles cx cy).state = TileState.REVEALED)
    (hmark : ¬ ((b.tiles cx cy).state = TileState.FLAGGED ∨
      (b.tiles cx cy).state = TileState.QUESTION))
    (hmine : ¬ (b.tiles cx cy).is_mine = true)
    (hnum : (b.tiles cx cy).adjacent_mines ≠ 0) :
    Board.floodLoop b ((cx, cy) :: rest) ch
      = Board.floodLoop (b.setTileState cx cy TileState.REVEALED) rest
          (ch ++ [(cx, cy)]) := by
  rw [Board.floodLoop]
  rw [dif_pos hin, dif_neg hrev, dif_neg hmark, dif_neg hmine]
  dsimp only
  rw [dif_pos hnum]

theorem floodLoop_reveal_zero {b : Board} {cx cy : Int} (rest ch : List (Int × Int))
    (hin : b.in_bounds cx cy = true)
    (hrev : ¬ (b.tiles cx cy).state = TileState.REVEALED)
    (hmark : ¬ ((b.tiles cx cy).state = TileState.FLAGGED ∨
      (b.tiles cx cy).state = TileState.QUESTION))
    (hmine : ¬ (b.tiles cx cy).is_mine = true)
    (hnum : ¬ (b.tiles cx cy).adjacent_mines ≠ 0) :
    Board.floodLoop b ((cx, cy) :: rest) ch
      = Board.floodLoop (b.setTileState cx cy TileState.REVEALED)
          ((((b.setTileState cx cy TileState.REVEALED).get_neighbors cx cy).filter
            fun p => decide (((b.setTileState cx cy TileState.REVEALED).tiles p.1 p.2).state
              = TileState.HIDDEN)).reverse ++ rest)
          (ch ++ [(cx, cy)]) := by
  rw [Board.floodLoop]
  rw [dif_pos hin, dif_neg hrev, dif_neg hmark, dif_neg hmine]
  dsimp only
  rw [dif_neg hnum]

theorem get_neighbors_in_bounds {b : Board} {x y : Int} {p : Int × Int}
    (h : p ∈ b.get_neighbors x y) : b.in_bounds p.1 p.2 = true := by
  unfold Board.get_neighbors at h
  rw [List.mem_flatMap] at h
  obtain ⟨dy, hdy, h⟩ := h
  rw [List.mem_filterMap] at h
  obtain ⟨dx, hdx, h⟩ := h
  split_ifs at h with h1 h2
  · injection h with h
    subst h
    exact h2

theorem in_bounds_congr {b1 b2 : Board} (hw : b1.width = b2.width)
    (hh : b1.height = b2.height) (x y : Int) :
    b1.in_bounds x y = b2.in_bounds x y := by
  unfold Board.in_bounds
  rw [hw, hh]

theorem pair_eq_of_proj {p : Int × Int} {cx cy : Int}
    (e1 : p.1 = cx) (e2 : p.2 = cy) : p = (cx, cy) := by
  cases p
  simp_all

theorem floodInv_reveal_num_step {b0 : Board} {sx sy : Int} {b : Board}
    {rest ch : List (Int × Int)} {cx cy : Int}
    (hinv : FloodInv b0 sx sy b ((cx, cy) :: rest) ch)
    (hrev : ¬ (b.tiles cx cy).state = TileState.REVEALED)
    (hmine : ¬ (b.tiles cx cy).is_mine = true)
    (hnum : (b.tiles cx cy).adjacent_mines ≠ 0) :
    FloodInv b0 sx sy (b.setTileState cx cy TileState.REVEALED) rest
      (ch ++ [(cx, cy)]) := by
  obtain ⟨T1, T2, HW, HH, ND, C2, Q1, CL, SEED⟩ := hinv
  have hq := Q1 (cx, cy) (List.mem_cons_self _ _)
  dsimp only at hq
  obtain ⟨hreach, hhid0, hinb0⟩ := hq
  have hnotch : ¬ (cx, cy) ∈ ch := by
    intro hmem
    apply hrev
    have h := T1 _ hmem
    dsimp only at h
    rw [h]
  have htc : b.tiles cx cy = b0.tiles cx cy := by
    have h := T2 _ hnotch
    dsimp only at h
    exact h
  have hmine0 : (b0.tiles cx cy).is_mine = false := by
    rw [← htc]
    cases hbm : (b.tiles cx cy).is_mine
    · rfl
    · exact absurd hbm hmine
  have hadj0 : (b0.tiles cx cy).adjacent_mines ≠ 0 := by
    rw [← htc]
    exact hnum
  refine ⟨?_, ?_, HW, HH, ?_, ?_, ?_, ?_, ?_⟩
  · intro p hp
    rw [List.mem_append] at hp
    rcases hp with hp | hp
    · have hne : ¬ (p.1 = cx ∧ p.2 = cy) := by
        rintro ⟨e1, e2⟩
        exact hnotch (by rw [← pair_eq_of_proj e1 e2]; exact hp)
      rw [setTileState_tiles, if_neg hne]
      exact T1 p hp
    · rw [List.mem_singleton] at hp
      subst hp
      dsimp only
      rw [setTileState_tiles, if_pos ⟨rfl, rfl⟩, htc]
  · intro p hp
    rw [List.mem_append] at hp
    push_neg at hp
    obtain ⟨hp1, hp2⟩ := hp
    have hne : ¬ (p.1 = cx ∧ p.2 = cy) := by
      rintro ⟨e1, e2⟩
      exact hp2 (by rw [List.mem_singleton]; exact pair_eq_of_proj e1 e2)
    rw [setTileState_tiles, if_neg hne]
    exact T2 p hp1
  · exact ND.append (List.nodup_singleton _)
      (fun a ha hb => hnotch (by rw [List.mem_singleton] at hb; rw [← hb]; exact ha))
  · intro p hp
    rw [List.mem_append] at hp
    rcases hp with hp | hp
    · exact C2 p hp
    · rw [List.mem_singleton] at hp
      subst hp
      exact ⟨hreach, hhid0, hmine0, hinb0⟩
  · intro p hp
    exact Q1 p (List.mem_cons_of_mem _ hp)
  · intro c hc hzc n hn hnh
    rw [List.mem_append] at hc
    rcases hc with hc | hc
    · rcases CL c hc hzc n hn hnh with h | h | h
      · exact Or.inl (List.mem_append.mpr (Or.inl h))
      · rcases List.mem_cons.mp h with he | he
        · exact Or.inl (List.mem_append.mpr (Or.inr (by rw [List.mem_singleton]; exact he)))
        · exact Or.inr (Or.inl he)
      · exact Or.inr (Or.inr h)
    · rw [List.mem_singleton] at hc
      subst hc
      dsimp only at hzc
      exact absurd hzc hadj0
  · rcases SEED with h | h | h
    · exact Or.inl (List.mem_append.mpr (Or.inl h))
    · rcases List.mem_cons.mp h with he | he
      · exact Or.inl (List.mem_append.mpr (Or.inr (by rw [List.mem_singleton]; exact he)))
      · exact Or.inr (Or.inl he)
    · exact Or.inr (Or.inr h)

theorem floodInv_reveal_zero_step {b0 : Board} {sx sy : Int} {b : Board}
    {rest ch : List (Int × Int)} {cx cy : Int}
    (hinv : FloodInv b0 sx sy b ((cx, cy) :: rest) ch)
    (hrev : ¬ (b.tiles cx cy).state = TileState.REVEALED)
    (hmine : ¬ (b.tiles cx cy).is_mine = true)
    (hnum : ¬ (b.tiles cx cy).adjacent_mines ≠ 0) :
    FloodInv b0 sx sy (b.setTileState cx cy TileState.REVEALED)
      ((((b.setTileState cx cy TileState.REVEALED).get_neighbors cx cy).filter
        fun p => decide (((b.setTileState cx cy TileState.REVEALED).tiles p.1 p.2).state
          = TileState.HIDDEN)).reverse ++ rest)
      (ch ++ [(cx, cy)]) := by
  obtain ⟨T1, T2, HW, HH, ND, C2, Q1, CL, SEED⟩ := hinv
  have hq := Q1 (cx, cy) (List.mem_cons_self _ _)
  dsimp only at hq
  obtain ⟨hreach, hhid0, hinb0⟩ := hq
  have hnotch : ¬ (cx, cy) ∈ ch := by
    intro hmem
    apply hrev
    have h := T1 _ hmem
    dsimp only at h
    rw [h]
  have htc : b.tiles cx cy = b0.tiles cx cy := by
    have h := T2 _ hnotch
    dsimp only at h
    exact h
  have hmine0 : (b0.tiles cx cy).is_mine = false := by
    rw [← htc]
    cases hbm : (b.tiles cx cy).is_mine
    · rfl
    · exact absurd hbm hmine
  have hadj0 : (b0.tiles cx cy).adjacent_mines = 0 := by
    rw [← htc]
    exact not_not.mp hnum
  have hT1' : ∀ p : Int × Int, p ∈ ch ++ [(cx, cy)] →
      (b.setTileState cx cy TileState.REVEALED).tiles p.1 p.2
        = { b0.tiles p.1 p.2 with state := TileState.REVEALED } := by
    intro p hp
    rw [List.mem_append] at hp
    rcases hp with hp | hp
    · have hne : ¬ (p.1 = cx ∧ p.2 = cy) := by
        rintro ⟨e1, e2⟩
        exact hnotch (by rw [← pair_eq_of_proj e1 e2]; exact hp)
      rw [setTileState_tiles, if_neg hne]
      exact T1 p hp
    · rw [List.mem_singleton] at hp
      subst hp
      dsimp only
      rw [setTileState_tiles, if_pos ⟨rfl, rfl⟩, htc]
  have hT2' : ∀ p : Int × Int, ¬ p ∈ ch ++ [(cx, cy)] →
      (b.setTileState cx cy TileState.REVEALED).tiles p.1 p.2 = b0.tiles p.1 p.2 := by
    intro p hp
    rw [List.mem_append] at hp
    push_neg at hp
    obtain ⟨hp1, hp2⟩ := hp
    have hne : ¬ (p.1 = cx ∧ p.2 = cy) := by
      rintro ⟨e1, e2⟩
      exact hp2 (by rw [List.mem_singleton]; exact pair_eq_of_proj e1 e2)
    rw [setTileState_tiles, if_neg hne]
    exact T2 p hp1
  have hneigh : ∀ x y : Int,
      (b.setTileState cx cy TileState.REVEALED).get_neighbors x y
        = b0.get_neighbors x y :=
    get_neighbors_congr HW HH
  have hpush : ∀ n : Int × Int,
      n ∈ (((b.setTileState cx cy TileState.REVEALED).get_neighbors cx cy).filter
        fun p => decide (((b.setTileState cx cy TileState.REVEALED).tiles p.1 p.2).state
          = TileState.HIDDEN)) →
      FloodReach b0 sx sy n ∧ (b0.tiles n.1 n.2).state = TileState.HIDDEN ∧
        b0.in_bounds n.1 n.2 = true := by
    intro n hn
    rw [List.mem_filter] at hn
    obtain ⟨hn_mem, hn_hid⟩ := hn
    rw [decide_eq_true_eq] at hn_hid
    have hnotch' : ¬ n ∈ ch ++ [(cx, cy)] := by
      intro hmem2
      rw [hT1' n hmem2] at hn_hid
      cases hn_hid
    have htn : (b.setTileState cx cy TileState.REVEALED).tiles n.1 n.2
        = b0.tiles n.1 n.2 := hT2' n hnotch'
    have hhid0n : (b0.tiles n.1 n.2).state = TileState.HIDDEN := by
      rw [← htn]
      exact hn_hid
    have hn0 : n ∈ b0.get_neighbors cx cy := by
      rw [← hneigh]
      exact hn_mem
    refine ⟨?_, hhid0n, get_neighbors_in_bounds hn0⟩
    exact FloodReach.step (cx, cy) n hreach hhid0 hmine0 hadj0 hn0 hhid0n
  refine ⟨hT1', hT2', HW, HH, ?_, ?_, ?_, ?_, ?_⟩
  · exact ND.append (List.nodup_singleton _)
      (fun a ha hb => hnotch (by rw [List.mem_singleton] at hb; rw [← hb]; exact ha))
  · intro p hp
    rw [List.mem_append] at hp
    rcases hp with hp | hp
    · exact C2 p hp
    · rw [List.mem_singleton] at hp
      subst hp
      exact ⟨hreach, hhid0, hmine0, hinb0⟩
  · intro p hp
    rw [List.mem_append] at hp
    rcases hp with hp | hp
    · exact hpush p (List.mem_reverse.mp hp)
    · exact Q1 p (List.mem_cons_of_mem _ hp)
  · intro c hc hzc n hn hnh
    rw [List.mem_append] at hc
    rcases hc with hc | hc
    · rcases CL c hc hzc n hn hnh with h | h | h
      · exact Or.inl (List.mem_append.mpr (Or.inl h))
      · rcases List.mem_cons.mp h with he | he
        · exact Or.inl (List.mem_append.mpr (Or.inr (by rw [List.mem_singleton]; exact he)))
        · exact Or.inr (Or.inl (List.mem_append.mpr (Or.inr he)))
      · exact Or.inr (Or.inr h)
    · rw [List.mem_singleton] at hc
      subst hc
      dsimp only at hn hnh
      by_cases hmem : n ∈ ch ++ [(cx, cy)]
      · exact Or.inl hmem
      · have htn := hT2' n hmem
        have hs : ((b.setTileState cx cy TileState.REVEALED).tiles n.1 n.2).state
            = TileState.HIDDEN := by
          rw [htn]
          exact hnh
        refine Or.inr (Or.inl (List.mem_append.mpr (Or.inl ?_)))
        rw [List.mem_reverse]
        rw [List.mem_filter]
        refine ⟨?_, by rw [decide_eq_true_eq]; exact hs⟩
        rw [hneigh]
        exact hn
  · rcases SEED with h | h | h
    · exact Or.inl (List.mem_append.mpr (Or.inl h))
    · rcases List.mem_cons.mp h with he | he
      · exact Or.inl (List.mem_append.mpr (Or.inr (by rw [List.mem_singleton]; exact he)))
      · exact Or.inr (Or.inl (List.mem_append.mpr (Or.inr he)))
    · exact Or.inr (Or.inr h)

theorem floodLoop_inv (b0 : Board) (sx sy : Int) :
    ∀ (b : Board) (q ch : List (Int × Int)),
      FloodInv b0 sx sy b q ch →
      FloodInv b0 sx sy (Board.floodLoop b q ch).1 [] (Board.floodLoop b q ch).2 ∧
      (∀ p : Int × Int, p ∈ ch → p ∈ (Board.floodLoop b q ch).2) := by
  intro b q ch
  induction b, q, ch using Board.floodLoop.induct with
  | case1 b ch =>
    intro hinv
    rw [floodLoop_nil]
    exact ⟨hinv, fun p hp => hp⟩
  | case2 b ch cx cy rest hin hrev ih =>
    intro hinv
    rw [floodLoop_skip_revealed rest ch hin hrev]
    obtain ⟨T1, T2, HW, HH, ND, C2, Q1, CL, SEED⟩ := hinv
    have hcch : (cx, cy) ∈ ch := by
      by_contra hnot
      have h := T2 _ hnot
      dsimp only at h
      have hq := Q1 (cx, cy) (List.mem_cons_self _ _)
      dsimp only at hq
      rw [h, hq.2.1] at hrev
      simp at hrev
    apply ih
    refine ⟨T1, T2, HW, HH, ND, C2,
      fun p hp => Q1 p (List.mem_cons_of_mem _ hp), ?_, ?_⟩
    · intro c hc hzc n hn hnh
      rcases CL c hc hzc n hn hnh with h | h | h
      · exact Or.inl h
      · rcases List.mem_cons.mp h with he | he
        · exact Or.inl (he ▸ hcch)
        · exact Or.inr (Or.inl he)
      · exact Or.inr (Or.inr h)
    · rcases SEED with h | h | h
      · exact Or.inl h
      · rcases List.mem_cons.mp h with he | he
        · exact Or.inl (he ▸ hcch)
        · exact Or.inr (Or.inl he)
      · exact Or.inr (Or.inr h)
  | case3 b ch cx cy rest hin hrev hmark ih =>
    intro hinv
    exfalso
    obtain ⟨T1, T2, _, _, _, _, Q1, _, _⟩ := hinv
    have hq := Q1 (cx, cy) (List.mem_cons_self _ _)
    dsimp only at hq
    have hnotch : ¬ (cx, cy) ∈ ch := by
      intro hmem
      apply hrev
      have h := T1 _ hmem
      dsimp only at h
      rw [h]
    have h := T2 _ hnotch
    dsimp only at h
    rw [h, hq.2.1] at hmark
    simp at hmark
  | case4 b ch cx cy rest hin hrev hmark hmine ih =>
    intro hinv
    rw [floodLoop_skip_mine rest ch hin hrev hmark hmine]
    obtain ⟨T1, T2, HW, HH, ND, C2, Q1, CL, SEED⟩ := hinv
    have hm0 : (b0.tiles cx cy).is_mine = true := by
      by_cases hmem : (cx, cy) ∈ ch
      · have h := T1 _ hmem
        dsimp only at h
        rw [h] at hmine
        exact hmine
      · have h := T2 _ hmem
        dsimp only at h
        rw [h] at hmine
        exact hmine
    apply ih
    refine ⟨T1, T2, HW, HH, ND, C2,
      fun p hp => Q1 p (List.mem_cons_of_mem _ hp), ?_, ?_⟩
    · intro c hc hzc n hn hnh
      rcases CL c hc hzc n hn hnh with h | h | h
      · exact Or.inl h
      · rcases List.mem_cons.mp h with he | he
        · refine Or.inr (Or.inr ?_)
          rw [he]
          dsimp only
          exact hm0
        · exact Or.inr (Or.inl he)
      · exact Or.inr (Or.inr h)
    · rcases SEED with h | h | h
      · exact Or.inl h
      · rcases List.mem_cons.mp h with he | he
        · refine Or.inr (Or.inr ?_)
          have h1 : sx = cx := congrArg Prod.fst he
          have h2 : sy = cy := congrArg Prod.snd he
          rw [h1, h2]
          exact hm0
        · exact Or.inr (Or.inl he)
      · exact Or.inr (Or.inr h)
  | case5 b ch cx cy rest hin hrev hmark hmine b' changed' hnum ih =>
    intro hinv
    rw [floodLoop_reveal_num rest ch hin hrev hmark hmine hnum]
    obtain ⟨ha, hb⟩ := ih (floodInv_reveal_num_step hinv hrev hmine hnum)
    exact ⟨ha, fun p hp => hb p (List.mem_append.mpr (Or.inl hp))⟩
  | case6 b ch cx cy rest hin hrev hmark hmine b' changed' hnum pushes ih =>
    intro hinv
    rw [floodLoop_reveal_zero rest ch hin hrev hmark hmine hnum]
    obtain ⟨ha, hb⟩ := ih (floodInv_reveal_zero_step hinv hrev hmine hnum)
    exact ⟨ha, fun p hp => hb p (List.mem_append.mpr (Or.inl hp))⟩
  | case7 b ch cx cy rest hin ih =>
    intro hinv
    exfalso
    obtain ⟨_, _, HW, HH, _, _, Q1, _, _⟩ := hinv
    have hq := Q1 (cx, cy) (List.mem_cons_self _ _)
    dsimp only at hq
    rw [in_bounds_congr HW HH] at hin
    exact hin hq.2.2

/-- Characterization of one flood-reveal call on a seed that is
currently `HIDDEN`: the recorded cells are exactly the initially
`HIDDEN` non-mine cells reachable along initially `HIDDEN` cells of the
zero-adjacency region (`FloodReach`), each of them ends `REVEALED` with
all other tile fields kept, every other cell of the board is untouched,
and no cell is recorded twice. -/
theorem flood_reveal_spec (b : Board) (sx sy : Int)
    (hin : b.in_bounds sx sy = true)
    (hhid : (b.tiles sx sy).state = TileState.HIDDEN) :
    (∀ p : Int × Int, p ∈ (b.flood_reveal sx sy []).2 ↔
      (FloodReach b sx sy p ∧ (b.tiles p.1 p.2).state = TileState.HIDDEN ∧
        (b.tiles p.1 p.2).is_mine = false)) ∧
    (∀ p : Int × Int, p ∈ (b.flood_reveal sx sy []).2 →
      (b.flood_reveal sx sy []).1.tiles p.1 p.2
        = { b.tiles p.1 p.2 with state := TileState.REVEALED }) ∧
    (∀ p : Int × Int, ¬ p ∈ (b.flood_reveal sx sy []).2 →
      (b.flood_reveal sx sy []).1.tiles p.1 p.2 = b.tiles p.1 p.2) ∧
    (b.flood_reveal sx sy []).2.Nodup := by
  simp only [Board.flood_reveal]
  have hstart : FloodInv b sx sy b [(sx, sy)] [] := by
    refine ⟨?_, ?_, rfl, rfl, List.nodup_nil, ?_, ?_, ?_, ?_⟩
    · intro p hp; cases hp
    · intro p _; rfl
    · intro p hp; cases hp
    · intro p hp
      rw [List.mem_singleton] at hp
      subst hp
      exact ⟨FloodReach.seed, hhid, hin⟩
    · intro c hc; cases hc
    · exact Or.inr (Or.inl (List.mem_singleton.mpr rfl))
  obtain ⟨hfin, _⟩ := floodLoop_inv b sx sy b [(sx, sy)] [] hstart
  obtain ⟨T1, T2, HW, HH, ND, C2, Q1, CL, SEED⟩ := hfin
  have hcomp : ∀ p : Int × Int, FloodReach b sx sy p →
      (p ∈ (Board.floodLoop b [(sx, sy)] []).2 ∨ (b.tiles p.1 p.2).is_mine = true) := by
    intro p hr
    induction hr with
    | seed =>
      rcases SEED with h | h | h
      · exact Or.inl h
      · cases h
      · exact Or.inr h
    | step c n hc hhidc hminec hzeroc hnb hnh ihc =>
      rcases ihc with hcch | hcm
      · rcases CL c hcch hzeroc n hnb hnh with h | h | h
        · exact Or.inl h
        · cases h
        · exact Or.inr h
      · rw [hminec] at hcm
        cases hcm
  refine ⟨?_, T1, T2, ND⟩
  intro p
  constructor
  · intro hp
    exact ⟨(C2 p hp).1, (C2 p hp).2.1, (C2 p hp).2.2.1⟩
  · rintro ⟨hr, hhidp, hminep⟩
    rcases hcomp p hr with h | h
    · exact h
    · rw [h] at hminep
      cases hminep

/-- C2 (amended): for a board with mines placed and a seed cell that is
not revealed, not marked (hence `HIDDEN`), not a mine and has zero
adjacency, flood-reveal sets to `REVEALED` exactly the initially
`HIDDEN` non-mine cells reachable from the seed through initially
`HIDDEN` zero-adjacency cells (`FloodReach`) — the zero region plus its
numbered border as far as it is reachable through `HIDDEN` cells —
records exactly those coordinates in `changed` (each once), leaves every
other tile untouched, and never reveals a mine or a marked tile (a
marked or already-revealed cell is skipped and blocks propagation
through itself, which is what the correction accounts for). -/
theorem flood_reveal_characterization (b : Board) (sx sy : Int)
    (hgen : b.mines_generated = true)
    (hin : b.in_bounds sx sy = true)
    (hhid : (b.tiles sx sy).state = TileState.HIDDEN)
    (hmine : (b.tiles sx sy).is_mine = false)
    (hzero : (b.tiles sx sy).adjacent_mines = 0) :
    (∀ p : Int × Int, p ∈ (b.flood_reveal sx sy []).2 ↔
      (FloodReach b sx sy p ∧ (b.tiles p.1 p.2).state = TileState.HIDDEN ∧
        (b.tiles p.1 p.2).is_mine = false)) ∧
    (∀ p : Int × Int, p ∈ (b.flood_reveal sx sy []).2 →
      (b.flood_reveal sx sy []).1.tiles p.1 p.2
        = { b.tiles p.1 p.2 with state := TileState.REVEALED }) ∧
    (∀ p : Int × Int, ¬ p ∈ (b.flood_reveal sx sy []).2 →
      (b.flood_reveal sx sy []).1.tiles p.1 p.2 = b.tiles p.1 p.2) ∧
    (b.flood_reveal sx sy []).2.Nodup :=
  flood_reveal_spec b sx sy hin hhid

/-- On `flaggedBoard` nothing is flood-reachable from the corner except
the corner itself: all three of its neighbors carry player flags. -/
theorem flaggedBoard_reach_only :
    ∀ p : Int × Int, FloodReach flaggedBoard 0 0 p → p = (0, 0) := by
  intro p hr
  induction hr with
  | seed => rfl
  | step c n hc hhidc hminec hzeroc hnb hnh ihc =>
    exfalso
    subst ihc
    have hblock : ∀ q ∈ flaggedBoard.get_neighbors 0 0,
        ¬ ((flaggedBoard.tiles q.1 q.2).state = TileState.HIDDEN) := by decide
    exact hblock n hnb hnh

set_option maxRecDepth 10000 in
/-- Counterexample to C2 as stated: on `flaggedBoard` (mine at `(4, 4)`,
flags on `(1, 0)`, `(0, 1)`, `(1, 1)`) the seed `(0, 0)` satisfies all
the claim's hypotheses and the cell `(3, 0)` belongs to the claimed
result set — the maximal connected zero region containing the seed plus
its numbered border minus the marked cells — yet flood-reveal neither
records it nor reveals it: the flags block propagation out of the
corner. -/
theorem flood_reveal_counterexample :
    flaggedBoard.mines_generated = true ∧
    flaggedBoard.in_bounds 0 0 = true ∧
    (flaggedBoard.tiles 0 0).state = TileState.HIDDEN ∧
    (flaggedBoard.tiles 0 0).is_mine = false ∧
    (flaggedBoard.tiles 0 0).adjacent_mines = 0 ∧
    (3, 0) ∈ specClaimedReveal flaggedBoard 0 0 ∧
    ¬ ((3, 0) ∈ (flaggedBoard.flood_reveal 0 0 []).2) ∧
    ¬ (((flaggedBoard.flood_reveal 0 0 []).1.tiles 3 0).state = TileState.REVEALED) := by
  have hspec := flood_reveal_spec flaggedBoard 0 0 (by decide) (by decide)
  have hnotmem : ¬ ((3, 0) ∈ (flaggedBoard.flood_reveal 0 0 []).2) := by
    intro hmem
    have hr := ((hspec.1 (3, 0)).mp hmem).1
    have := flaggedBoard_reach_only _ hr
    simp at this
  refine ⟨by decide, by decide, by decide, by decide, by decide, by decide, hnotmem, ?_⟩
  have hunch := hspec.2.2.1 (3, 0) hnotmem
  dsimp only at hunch
  rw [hunch]
  decide

/-- Witness for `flood_reveal_characterization` at the corner of
`farPlaced` (mine far away at `(4, 4)`, everything hidden). -/
theorem flood_reveal_characterization_witness :
    farPlaced.mines_generated = true ∧
    farPlaced.in_bounds 0 0 = true ∧
    (farPlaced.tiles 0 0).state = TileState.HIDDEN ∧
    (farPlaced.tiles 0 0).is_mine = false ∧
    (farPlaced.tiles 0 0).adjacent_mines = 0 ∧
    (∀ p : Int × Int, p ∈ (farPlaced.flood_reveal 0 0 []).2 ↔
      (FloodReach farPlaced 0 0 p ∧
        (farPlaced.tiles p.1 p.2).state = TileState.HIDDEN ∧
        (farPlaced.tiles p.1 p.2).is_mine = false)) ∧
    (farPlaced.flood_reveal 0 0 []).2.Nodup :=
  ⟨by decide, by decide, by decide, by decide, by decide,
    (flood_reveal_characterization farPlaced 0 0 (by decide) (by decide) (by decide)
      (by decide) (by decide)).1,
    (flood_reveal_characterization farPlaced 0 0 (by decide) (by decide) (by decide)
      (by decide) (by decide)).2.2.2⟩

theorem floodLoop_nodup_spec :
    ∀ (b : Board) (q ch : List (Int × Int)),
      (∀ p : Int × Int, p ∈ ch →
        ((b.tiles p.1 p.2).state = TileState.REVEALED ∧ b.in_bounds p.1 p.2 = true)) →
      ch.Nodup →
      ((Board.floodLoop b q ch).2.Nodup ∧
        (∀ p : Int × Int, p ∈ (Board.floodLoop b q ch).2 →
          ((Board.floodLoop b q ch).1.tiles p.1 p.2).state = TileState.REVEALED ∧
          (Board.floodLoop b q ch).1.in_bounds p.1 p.2 = true) ∧
        (Board.floodLoop b q ch).1.width = b.width ∧
        (Board.floodLoop b q ch).1.height = b.height) := by
  intro b q ch
  induction b, q, ch using Board.floodLoop.induct with
  | case1 b ch =>
    intro hch hnd
    rw [floodLoop_nil]
    exact ⟨hnd, hch, rfl, rfl⟩
  | case2 b ch cx cy rest hin hrev ih =>
    intro hch hnd
    rw [floodLoop_skip_revealed rest ch hin hrev]
    exact ih hch hnd
  | case3 b ch cx cy rest hin hrev hmark ih =>
    intro hch hnd
    rw [floodLoop_skip_marked rest ch hin hrev hmark]
    exact ih hch hnd
  | case4 b ch cx cy rest hin hrev hmark hmine ih =>
    intro hch hnd
    rw [floodLoop_skip_mine rest ch hin hrev hmark hmine]
    exact ih hch hnd
  | case5 b ch cx cy rest hin hrev hmark hmine b' changed' hnum ih =>
    intro hch hnd
    rw [floodLoop_reveal_num rest ch hin hrev hmark hmine hnum]
    have hnotch : ¬ (cx, cy) ∈ ch := fun hmem => hrev (hch _ hmem).1
    refine ih ?_ (hnd.append (List.nodup_singleton _)
      (fun a ha hb => hnotch (by rw [List.mem_singleton] at hb; rw [← hb]; exact ha)))
    intro p hp
    rw [List.mem_append] at hp
    rcases hp with hp | hp
    · obtain ⟨h1, h2⟩ := hch p hp
      have hne : ¬ (p.1 = cx ∧ p.2 = cy) := by
        rintro ⟨e1, e2⟩
        exact hnotch (by rw [← pair_eq_of_proj e1 e2]; exact hp)
      rw [setTileState_tiles, if_neg hne]
      exact ⟨h1, h2⟩
    · rw [List.mem_singleton] at hp
      subst hp
      dsimp only
      rw [setTileState_tiles, if_pos ⟨rfl, rfl⟩]
      exact ⟨rfl, hin⟩
  | case6 b ch cx cy rest hin hrev hmark hmine b' changed' hnum pushes ih =>
    intro hch hnd
    rw [floodLoop_reveal_zero rest ch hin hrev hmark hmine hnum]
    have hnotch : ¬ (cx, cy) ∈ ch := fun hmem => hrev (hch _ hmem).1
    refine ih ?_ (hnd.append (List.nodup_singleton _)
      (fun a ha hb => hnotch (by rw [List.mem_singleton] at hb; rw [← hb]; exact ha)))
    intro p hp
    rw [List.mem_append] at hp
    rcases hp with hp | hp
    · obtain ⟨h1, h2⟩ := hch p hp
      have hne : ¬ (p.1 = cx ∧ p.2 = cy) := by
        rintro ⟨e1, e2⟩
        exact hnotch (by rw [← pair_eq_of_proj e1 e2]; exact hp)
      rw [setTileState_tiles, if_neg hne]
      exact ⟨h1, h2⟩
    · rw [List.mem_singleton] at hp
      subst hp
      dsimp only
      rw [setTileState_tiles, if_pos ⟨rfl, rfl⟩]
      exact ⟨rfl, hin⟩
  | case7 b ch cx cy rest hin ih =>
    intro hch hnd
    rw [floodLoop_skip_oob rest ch hin]
    exact ih hch hnd

/-- C9: the flood-reveal work-list loop is a total function (its
termination is established once and for all by the well-founded measure
`(unrevealed tiles, work-list length)` in its definition); each board
tile is revealed — and hence appended to `changed` — at most once, so
`changed` has no duplicates, holds only in-bounds cells, and its length
is at most `width * height`. -/
theorem flood_reveal_visits_once (b : Board) (sx sy : Int)
    (hin : b.in_bounds sx sy = true) :
    (b.flood_reveal sx sy []).2.Nodup ∧
    (∀ p : Int × Int, p ∈ (b.flood_reveal sx sy []).2 → b.in_bounds p.1 p.2 = true) ∧
    (b.flood_reveal sx sy []).2.length ≤ b.width.toNat * b.height.toNat := by
  simp only [Board.flood_reveal]
  obtain ⟨hnd, hmem, hW, hH⟩ :=
    floodLoop_nodup_spec b [(sx, sy)] [] (by intro p hp; cases hp) List.nodup_nil
  have hinb : ∀ p : Int × Int, p ∈ (Board.floodLoop b [(sx, sy)] []).2 →
      b.in_bounds p.1 p.2 = true := by
    intro p hp
    rw [← in_bounds_congr hW hH]
    exact (hmem p hp).2
  refine ⟨hnd, hinb, ?_⟩
  have hsub : (Board.floodLoop b [(sx, sy)] []).2 ⊆ b.allPositions := by
    intro p hp
    exact mem_allPositions.mpr (hinb p hp)
  have := (List.subperm_of_subset hnd hsub).length_le
  rw [length_allPositions] at this
  rw [Nat.mul_comm b.width.toNat b.height.toNat]
  exact this

/-- Witness for `flood_reveal_visits_once` at the corner of
`farPlaced`. -/
theorem flood_reveal_visits_once_witness :
    farPlaced.in_bounds 0 0 = true ∧
    (farPlaced.flood_reveal 0 0 []).2.Nodup ∧
    (farPlaced.flood_reveal 0 0 []).2.length
      ≤ farPlaced.width.toNat * farPlaced.height.toNat :=
  ⟨by decide, (flood_reveal_visits_once farPlaced 0 0 (by decide)).1,
    (flood_reveal_visits_once farPlaced 0 0 (by decide)).2.2⟩

theorem Board_create_ok_eq {w h mc r : Int} {q : Bool} {b : Board}
    (hc : Board.create w h mc r q = Except.ok b) :
    b = { width := w, height := h, mine_count := mc, safe_zone_radius := r,
          use_question_marks := q, tiles := fun _ _ => {},
          mines_generated := false } := by
  unfold Board.create at hc
  rcases hv : Board.validate_dimensions w h mc with _ | e <;> rw [hv] at hc
  · split_ifs at hc
    injection hc with hc
    exact hc.symm
  · exact absurd hc (by simp)

theorem place_mines_states_hidden {shuffle : List (Int × Int) → List (Int × Int)}
    {b pb : Board} {sx sy : Int}
    (h : Board.place_mines shuffle b sx sy = Except.ok pb) :
    ∀ x y : Int, (pb.tiles x y).state = TileState.HIDDEN := by
  obtain ⟨heq, _, _⟩ := place_mines_ok_spec h
  intro x y
  rw [heq]
  show (((((shuffle (b.eligiblePositions sx sy)).take b.mine_count.toNat).foldl
      Board.setMine b.reset_tiles).recalculate_adjacent_mines).tiles x y).state
    = TileState.HIDDEN
  rw [recalc_state, foldl_setMine_state]
  rfl

theorem floodLoop_tiles_cases :
    ∀ (b : Board) (q ch : List (Int × Int)) (x y : Int),
      (Board.floodLoop b q ch).1.tiles x y = b.tiles x y ∨
      ((Board.floodLoop b q ch).1.tiles x y).state = TileState.REVEALED := by
  intro b q ch
  induction b, q, ch using Board.floodLoop.induct with
  | case1 b ch =>
    intro x y
    rw [floodLoop_nil]
    exact Or.inl rfl
  | case2 b ch cx cy rest hin hrev ih =>
    intro x y
    rw [floodLoop_skip_revealed rest ch hin hrev]
    exact ih x y
  | case3 b ch cx cy rest hin hrev hmark ih =>
    intro x y
    rw [floodLoop_skip_marked rest ch hin hrev hmark]
    exact ih x y
  | case4 b ch cx cy rest hin hrev hmark hmine ih =>
    intro x y
    rw [floodLoop_skip_mine rest ch hin hrev hmark hmine]
    exact ih x y
  | case5 b ch cx cy rest hin hrev hmark hmine b' changed' hnum ih =>
    intro x y
    rw [floodLoop_reveal_num rest ch hin hrev hmark hmine hnum]
    rcases ih x y with h | h
    · by_cases hp : x = cx ∧ y = cy
      · refine Or.inr ?_
        rw [h, setTileState_tiles, if_pos hp]
      · refine Or.inl ?_
        rw [h, setTileState_tiles, if_neg hp]
    · exact Or.inr h
  | case6 b ch cx cy rest hin hrev hmark hmine b' changed' hnum pushes ih =>
    intro x y
    rw [floodLoop_reveal_zero rest ch hin hrev hmark hmine hnum]
    rcases ih x y with h | h
    · by_cases hp : x = cx ∧ y = cy
      · refine Or.inr ?_
        rw [h, setTileState_tiles, if_pos hp]
      · refine Or.inl ?_
        rw [h, setTileState_tiles, if_neg hp]
    · exact Or.inr h
  | case7 b ch cx cy rest hin ih =>
    intro x y
    rw [floodLoop_skip_oob rest ch hin]
    exact ih x y

/-- C10: on a fresh session, flagging a hidden tile before any reveal
returns delta `+1` and drops `remaining_flags` to `mine_count - 1`;
the first reveal then runs the lazy mine placement, whose tile reset
erases the flag — after the reveal the formerly flagged tile is
`HIDDEN` or `REVEALED`, never `FLAGGED` — while `remaining_flags` stays
at `mine_count - 1` and is not restored. -/
theorem first_reveal_erases_premature_flag
    (st : SessionSettings) (s0 : GameSession) (fx fy ox oy : Int)
    (shuffle : List (Int × Int) → List (Int × Int)) (now : ℚ)
    (hc : GameSession.create st = Except.ok s0)
    (hf : s0.board.in_bounds fx fy = true)
    (hplace : ∃ pb, Board.place_mines shuffle ((s0.toggle_flag fx fy).2.board) ox oy
      = Except.ok pb) :
    (s0.toggle_flag fx fy).1 = Except.ok (some 1) ∧
    ((s0.toggle_flag fx fy).2.board.tiles fx fy).state = TileState.FLAGGED ∧
    (s0.toggle_flag fx fy).2.remaining_flags = st.mine_count - 1 ∧
    (∀ (r : Except BoardError (Option BoardUpdateResult)) (s2 : GameSession),
      (s0.toggle_flag fx fy).2.open_tile shuffle ox oy now = (r, s2) →
      ((∃ res : BoardUpdateResult, r = Except.ok (some res)) ∧
        s2.remaining_flags = st.mine_count - 1 ∧
        ((s2.board.tiles fx fy).state = TileState.HIDDEN ∨
          (s2.board.tiles fx fy).state = TileState.REVEALED))) := by
  have hmc1 : 1 ≤ st.mine_count := (create_ok_facts hc).1
  obtain ⟨b0, hb0, hs0⟩ : ∃ b0, GameSession.create_board st = Except.ok b0 ∧
      s0 = { settings := st, timer := GameTimer.init, board := b0,
             status := GameStatus.NOT_STARTED, is_paused := false,
             remaining_flags := st.mine_count } := by
    unfold GameSession.create at hc
    rcases hb : GameSession.create_board st with e | b0 <;> rw [hb] at hc
    · exact absurd hc (by simp)
    · injection hc with hc
      exact ⟨b0, rfl, hc.symm⟩
  have hb0eq : b0 = { width := st.width, height := st.height,
                      mine_count := st.mine_count,
                      safe_zone_radius := st.safe_zone_radius,
                      use_question_marks := st.use_question_marks,
                      tiles := fun _ _ => ({} : Tile),
                      mines_generated := false } := Board_create_ok_eq hb0
  subst hs0
  have hfb : b0.in_bounds fx fy = true := hf
  have htileh : (b0.tiles fx fy).state = TileState.HIDDEN := by rw [hb0eq]
  have htog := toggle_flag_hidden hfb htileh
  have hses : (({ settings := st, timer := GameTimer.init, board := b0,
                  status := GameStatus.NOT_STARTED, is_paused := false,
                  remaining_flags := st.mine_count } : GameSession).toggle_flag fx fy)
      = (Except.ok (some 1),
         { settings := st, timer := GameTimer.init,
           board := b0.setTileState fx fy TileState.FLAGGED,
           status := GameStatus.NOT_STARTED, is_paused := false,
           remaining_flags := st.mine_count - 1 }) := by
    unfold GameSession.toggle_flag
    rw [if_neg (by simp [GameSession.ensure_can_play])]
    rw [show GameRules.toggle_flag ({ settings := st, timer := GameTimer.init,
                                      board := b0, status := GameStatus.NOT_STARTED,
                                      is_paused := false,
                                      remaining_flags := st.mine_count } :
        GameSession).board fx fy
      = Except.ok (1, b0.setTileState fx fy TileState.FLAGGED) from htog]
    dsimp only
    rw [if_pos (by norm_num : (1 : Int) ≠ 0)]
    rw [if_neg (by omega : ¬ st.mine_count - 1 < 0)]
    rw [if_neg (by omega : ¬ st.mine_count - 1 > st.mine_count)]
  rw [hses]
  refine ⟨rfl, state_setTileState_same .., rfl, ?_⟩
  intro r s2 hopen
  obtain ⟨pb, hpb⟩ := hplace
  rw [hses] at hpb
  dsimp only at hpb
  have hoxy : (b0.setTileState fx fy TileState.FLAGGED).in_bounds ox oy = true :=
    (place_mines_ok_spec hpb).2.1
  have hpbstates : ∀ x y : Int, (pb.tiles x y).state = TileState.HIDDEN :=
    place_mines_states_hidden hpb
  have hgenf : ¬ (b0.setTileState fx fy TileState.FLAGGED).mines_generated = true := by
    rw [hb0eq]
    simp [Board.setTileState, Board.setTile]
  have hob : Board.open_tile shuffle (b0.setTileState fx fy TileState.FLAGGED) ox oy true =
      (if (pb.tiles ox oy).is_mine = true then
        Except.ok (pb.setTileState ox oy TileState.REVEALED,
          { changed := [(ox, oy)], exploded := true, won := false })
      else if (pb.tiles ox oy).adjacent_mines = 0 then
        Except.ok ((pb.flood_reveal ox oy []).1,
          { changed := (pb.flood_reveal ox oy []).2, exploded := false,
            won := (pb.flood_reveal ox oy []).1.is_win })
      else
        Except.ok (pb.setTileState ox oy TileState.REVEALED,
          { changed := [(ox, oy)], exploded := false,
            won := (pb.setTileState ox oy TileState.REVEALED).is_win })) := by
    unfold Board.open_tile
    rw [if_neg (by simp [hoxy])]
    rw [if_pos ⟨hgenf, rfl⟩]
    rw [hpb]
    dsimp only
    rw [if_neg (by rw [hpbstates]; simp)]
  unfold GameSession.open_tile at hopen
  rw [if_neg (by simp [GameSession.ensure_can_play])] at hopen
  rw [if_pos rfl] at hopen
  dsimp only at hopen
  rw [show GameRules.open_tile shuffle (b0.setTileState fx fy TileState.FLAGGED) ox oy
    = _ from hob] at hopen
  have hstate2 : ∀ brd : Board,
      (brd.tiles fx fy = pb.tiles fx fy ∨
        (brd.tiles fx fy).state = TileState.REVEALED) →
      ((brd.tiles fx fy).state = TileState.HIDDEN ∨
        (brd.tiles fx fy).state = TileState.REVEALED) := by
    intro brd hcase
    rcases hcase with h | h
    · rw [h, hpbstates]
      exact Or.inl rfl
    · exact Or.inr h
  by_cases hm2 : (pb.tiles ox oy).is_mine = true
  · rw [if_pos hm2] at hopen
    dsimp only at hopen
    have hr := congrArg Prod.fst hopen
    have hs2 := congrArg Prod.snd hopen
    dsimp only at hr hs2
    refine ⟨⟨_, hr.symm⟩, ?_, ?_⟩
    · rw [← hs2]
      rfl
    · rw [← hs2]
      have hcase : ∀ s3 : GameSession, s3.board = pb.setTileState ox oy TileState.REVEALED →
          ((s3.board.tiles fx fy).state = TileState.HIDDEN ∨
            (s3.board.tiles fx fy).state = TileState.REVEALED) := by
        intro s3 hb3
        rw [hb3]
        refine hstate2 _ ?_
        by_cases hp : fx = ox ∧ fy = oy
        · refine Or.inr ?_
          rw [setTileState_tiles, if_pos hp]
        · refine Or.inl ?_
          rw [setTileState_tiles, if_neg hp]
      refine hcase _ ?_
      split_ifs <;> rfl
  · rw [if_neg hm2] at hopen
    by_cases hz : (pb.tiles ox oy).adjacent_mines = 0
    · rw [if_pos hz] at hopen
      dsimp only at hopen
      have hr := congrArg Prod.fst hopen
      have hs2 := congrArg Prod.snd hopen
      dsimp only at hr hs2
      rw [← hs2]
      refine ⟨⟨_, hr.symm⟩, ?_, ?_⟩
      · split_ifs <;> rfl
      · have hcase : ∀ s3 : GameSession, s3.board = (pb.flood_reveal ox oy []).1 →
            ((s3.board.tiles fx fy).state = TileState.HIDDEN ∨
              (s3.board.tiles fx fy).state = TileState.REVEALED) := by
          intro s3 hb3
          rw [hb3]
          exact hstate2 _ (floodLoop_tiles_cases pb [(ox, oy)] [] fx fy)
        refine hcase _ ?_
        split_ifs <;> rfl
    · rw [if_neg hz] at hopen
      dsimp only at hopen
      have hr := congrArg Prod.fst hopen
      have hs2 := congrArg Prod.snd hopen
      dsimp only at hr hs2
      rw [← hs2]
      refine ⟨⟨_, hr.symm⟩, ?_, ?_⟩
      · split_ifs <;> rfl
      · have hcase : ∀ s3 : GameSession, s3.board = pb.setTileState ox oy TileState.REVEALED →
            ((s3.board.tiles fx fy).state = TileState.HIDDEN ∨
              (s3.board.tiles fx fy).state = TileState.REVEALED) := by
          intro s3 hb3
          rw [hb3]
          refine hstate2 _ ?_
          by_cases hp : fx = ox ∧ fy = oy
          · refine Or.inr ?_
            rw [setTileState_tiles, if_pos hp]
          · refine Or.inl ?_
            rw [setTileState_tiles, if_neg hp]
        refine hcase _ ?_
        split_ifs <;> rfl

theorem first_reveal_erases_premature_flag_witness :
    GameSession.create demoSettings = Except.ok demoSession ∧
    demoSession.board.in_bounds 0 0 = true ∧
    (∃ pb, Board.place_mines revShuffle ((demoSession.toggle_flag 0 0).2.board) 3 3
        = Except.ok pb) ∧
    (demoSession.toggle_flag 0 0).1 = Except.ok (some 1) :=
  ⟨rfl, by decide, ⟨_, rfl⟩,
    (first_reveal_erases_premature_flag demoSettings demoSession 0 0 3 3 revShuffle 0
      rfl (by decide) ⟨_, rfl⟩).1⟩

end Minesweeper
